import Mathlib

/-!
# SDK bootstrap (`sdk/bootstrap/main.go`): resolution loops, template pipeline, environment redaction

A shallow embedding of the bootstrap program.  The process is sequential, so every
function is a pure function of the state it reads and of the answers the outside world
gives:

* name resolution: the answers of `net.LookupHost`, in call order, are a list of
  `Attempt`s; the wall clock is a natural number of nanoseconds; a `*time.Timer` is
  `Option Timer` (`none` is the nil pointer);
* templates: the filesystem is an association list of nodes, and every `os.Stat`,
  `ioutil.ReadFile` and `ioutil.WriteFile` call is recorded in a trace;
* `log.Fatalf` and run-time panics end the run with an `Exit` value.

Log lines (`log.Printf`, the diff printed to stderr) are not modelled.
-/

namespace Bootstrap

/-! ## Process termination -/

/-- The `log.Fatalf` sites of `main.go`, one constructor per site, carrying the values the
message is formatted from. -/
inductive Fatal where
  /-- Line 179: `Internal error: Timer channel closed`. -/
  | timerChannelClosed
  /-- Line 209: `Time ran out while resolving '%s'`. -/
  | timeRanOutResolving (host : String)
  /-- Line 244: `Missing required envvars to build task DNS address`. -/
  | missingTaskHostEnv
  /-- Line 275: `Time ran out waiting for %s to resolve to %s`. -/
  | timeRanOutVerifying (taskHost podIP : String)
  /-- Line 294: `Missing required envvar: MESOS_SANDBOX`. -/
  | missingSandbox
  /-- Line 299: `Path from %s doesn't exist: %s`. -/
  | pathDoesNotExist (source templatePath : String)
  /-- Line 306: `Path from %s is not a regular file: %s`. -/
  | notRegularFile (source templatePath : String)
  /-- Line 310: `File '%s' from %s is %d bytes, exceeds maximum %d bytes`. -/
  | exceedsMaximum (templatePath source : String) (size maxBytes : Int)
  /-- Line 316: `Failed to read file from %s at '%s': %s`. -/
  | readFailed (source templatePath err : String)
  /-- Line 335: `Failed to render template from %s at '%s': %s`. -/
  | renderFailed (source outPath err : String)
  /-- Line 347: `Failed to write rendered template from %s to '%s': %s`. -/
  | writeFailed (source outPath err : String)
  /-- Line 368: `Provided value for %s is invalid: Should be two strings separated by a comma`. -/
  | invalidTemplateValue (key value : String)
  deriving DecidableEq, Repr

/-- Run-time panics of the Go runtime that the program can reach. -/
inductive Panic where
  /-- A method that reads a field was called through a nil pointer. -/
  | nilDereference
  /-- A slice was indexed at or beyond its length. -/
  | indexOutOfRange (index length : Nat)
  deriving DecidableEq, Repr

/-- How the process ends when it does not run to completion. -/
inductive Exit where
  | fatal (f : Fatal)
  | panic (p : Panic)
  deriving DecidableEq, Repr

/-! ## Name resolution -/

/-- The constant `resolveRetryDelay`: one second, in nanoseconds. -/
def resolveRetryDelay : Nat := 1 * 1000000000

/-- One call of `net.LookupHost`: the time it took, and the pair `(result, err)` it
returned (`err = none` is Go's `err == nil`).  A sleep that lasts longer than
`resolveRetryDelay` is accounted for in the `took` of the attempt that follows it. -/
structure Attempt where
  took : Nat
  err : Option String
  result : List String
  deriving DecidableEq, Repr

/-- A timer made by `time.NewTimer`: it delivers one value on its channel at `fireAt`. -/
structure Timer where
  fireAt : Nat
  deriving DecidableEq, Repr

/-- `time.NewTimer(d)` called at `now`; a negative duration fires at once. -/
def newTimer (now : Nat) (d : Int) : Timer := ⟨now + d.toNat⟩

/-- What a non-blocking receive `case _, done := <-timer.C` / `default` observes. -/
inductive Poll where
  /-- The `default` branch: nothing to receive. -/
  | empty
  /-- A value was received (`done` is true). -/
  | value
  /-- The channel is closed (`done` is false). -/
  | closed
  deriving DecidableEq, Repr

/-- The channel of a timer holds its value from `fireAt` on.  The runtime never closes a
timer channel, and the only receive before clean-up is the one in `isExpired`, whose
`true` answer always leads to `log.Fatalf`, so the value is never taken twice. -/
def Timer.poll (t : Timer) (now : Nat) : Poll :=
  if t.fireAt ≤ now then Poll.value else Poll.empty

/-- The function `isExpired` (lines 168-185). -/
def isExpired (timer : Option Timer) (now : Nat) : Except Fatal Bool :=
  match timer with
  | none => .ok false
  | some t =>
    match t.poll now with
    | Poll.value => .ok true
    | Poll.closed => .error Fatal.timerChannelClosed
    | Poll.empty => .ok false

/-- The outcome of running a piece of the resolution stage: the clock and the lookups not
yet consumed are threaded through. -/
inductive Run (α : Type) where
  /-- Returned `val` to the caller. -/
  | ret (val : α) (now : Nat) (rest : List Attempt)
  /-- The process ended. -/
  | exit (e : Exit) (now : Nat) (rest : List Attempt)
  /-- Still looping when the supplied lookups ran out. -/
  | waiting
  deriving DecidableEq, Repr

/-- An attempt the loop of `resolveHost` retries (lines 195-202): it returned an error, or
it returned zero addresses. -/
def Attempt.failed (a : Attempt) : Bool :=
  a.err.isSome || a.result.length == 0

/-- The function `resolveHost` (lines 188-216), by recursion on the lookups the loop will
perform. -/
def resolveHost (host : String) (timer : Option Timer) : Nat → List Attempt → Run (List String)
  | _, [] => Run.waiting
  | now, a :: rest =>
    let now1 := now + a.took
    if a.err.isSome then
      match isExpired timer now1 with
      | .error f => Run.exit (Exit.fatal f) now1 rest
      | .ok true => Run.exit (Exit.fatal (Fatal.timeRanOutResolving host)) now1 rest
      | .ok false => resolveHost host timer (now1 + resolveRetryDelay) rest
    else if a.result.length == 0 then
      match isExpired timer now1 with
      | .error f => Run.exit (Exit.fatal f) now1 rest
      | .ok true => Run.exit (Exit.fatal (Fatal.timeRanOutResolving host)) now1 rest
      | .ok false => resolveHost host timer (now1 + resolveRetryDelay) rest
    else
      Run.ret a.result now1 rest

/-- The clock reading when the last attempt of `attempts` completes, for a loop entered at
`now` that slept `resolveRetryDelay` after each earlier attempt.  It is the reading at
which the expiry check following that attempt is made. -/
def clockAfter : Nat → List Attempt → Nat
  | now, [] => now
  | now, [a] => now + a.took
  | now, a :: b :: more => clockAfter (now + a.took + resolveRetryDelay) (b :: more)

/-- The `for _, host := range resolveHosts` loop of `waitForResolve` (lines 226-228). -/
def resolveEach (timer : Option Timer) : List String → Nat → List Attempt → Run Unit
  | [], now, lookups => Run.ret () now lookups
  | host :: hosts, now, lookups =>
    match resolveHost host timer now lookups with
    | Run.ret _ now1 rest => resolveEach timer hosts now1 rest
    | Run.exit e now1 rest => Run.exit e now1 rest
    | Run.waiting => Run.waiting

/-- The method `(*time.Timer).Stop` on a non-nil timer: true when the call stops the timer
before it fired. -/
def Timer.stop (t : Timer) (now : Nat) : Bool := decide (now < t.fireAt)

/-- The clean-up `if !timer.Stop() { <-timer.C }` (lines 235-237 and 284-286).  `Stop`
reads a field of its receiver, so calling it through the nil pointer panics.  On a real
timer, when `Stop` answers false the value is still on the channel and the receive
returns at once. -/
def stopAndDrain (timer : Option Timer) (now : Nat) : Except Panic Unit :=
  match timer with
  | none => .error Panic.nilDereference
  | some t => if !(t.stop now) then .ok () else .ok ()

/-- The timer set-up shared by `waitForResolve` and `verifySelfResolution`
(lines 219-224 and 250-255). -/
def armTimer (now : Nat) (resolveTimeout : Int) : Option Timer :=
  if resolveTimeout == 0 then none else some (newTimer now resolveTimeout)

/-- The function `waitForResolve` (lines 218-238). -/
def waitForResolve (resolveHosts : List String) (resolveTimeout : Int)
    (now : Nat) (lookups : List Attempt) : Run Unit :=
  let timer := armTimer now resolveTimeout
  match resolveEach timer resolveHosts now lookups with
  | Run.ret _ now1 rest =>
    match stopAndDrain timer now1 with
    | .error p => Run.exit (Exit.panic p) now1 rest
    | .ok _ => Run.ret () now1 rest
  | Run.exit e now1 rest => Run.exit e now1 rest
  | Run.waiting => Run.waiting

/-! ## Strings and the process environment -/

/-- Split a text at the first occurrence of `sep`: the part before it and the part after
it, or `none` when `sep` does not occur. -/
def cutAt (sep : Char) : List Char → Option (List Char × List Char)
  | [] => none
  | c :: cs =>
    if c = sep then some ([], cs)
    else match cutAt sep cs with
      | none => none
      | some (before, after) => some (c :: before, after)

/-- The call `strings.SplitN(s, sep, 2)` for a one-character separator. -/
def splitN2 (s : String) (sep : Char) : List String :=
  match cutAt sep s.data with
  | none => [s]
  | some (before, after) => [String.mk before, String.mk after]

/-- The expression `strings.Split(s, sep)[0]` for a one-character separator. -/
def splitHead (s : String) (sep : Char) : String :=
  match cutAt sep s.data with
  | none => s
  | some (before, _) => String.mk before

/-- The call `strings.HasPrefix(s, pre)`. -/
def hasPrefix (s pre : String) : Bool := pre.data.isPrefixOf s.data

/-- The call `os.LookupEnv(key)` against the entries `os.Environ()` would list: the value
of the first `key=value` entry with that key. -/
def lookupEnv : List String → String → Option String
  | [], _ => none
  | entry :: env, key =>
    match cutAt '=' entry.data with
    | some (k, v) => if String.mk k = key then some (String.mk v) else lookupEnv env key
    | none => lookupEnv env key

/-- The function `parseTaskHost` (lines 120-128); `none` is the error return. -/
def parseTaskHost (env : List String) : Option String :=
  match lookupEnv env "TASK_NAME", lookupEnv env "FRAMEWORK_HOST" with
  | some taskName, some frameworkHost => some (taskName ++ "." ++ frameworkHost)
  | _, _ => none

/-! ## Self-resolution -/

/-- The `for` loop of `verifySelfResolution` (lines 257-281), unfolded at most `iterations`
times; `Run.ret` is the `break`. -/
def verifyLoopN (taskHost podIP : String) (timer : Option Timer) :
    Nat → Nat → List Attempt → Run Unit
  | 0, _, _ => Run.waiting
  | iterations + 1, now, lookups =>
    match resolveHost taskHost timer now lookups with
    | Run.waiting => Run.waiting
    | Run.exit e now1 rest => Run.exit e now1 rest
    | Run.ret resolvedIPs now1 rest =>
      if resolvedIPs.length != 1 then
        match isExpired timer now1 with
        | .error f => Run.exit (Exit.fatal f) now1 rest
        | .ok true => Run.exit (Exit.fatal (Fatal.timeRanOutVerifying taskHost podIP)) now1 rest
        | .ok false => verifyLoopN taskHost podIP timer iterations (now1 + resolveRetryDelay) rest
      else if resolvedIPs.head? != some podIP then
        match isExpired timer now1 with
        | .error f => Run.exit (Exit.fatal f) now1 rest
        | .ok true => Run.exit (Exit.fatal (Fatal.timeRanOutVerifying taskHost podIP)) now1 rest
        | .ok false => verifyLoopN taskHost podIP timer iterations (now1 + resolveRetryDelay) rest
      else
        Run.ret () now1 rest

/-- The `for` loop of `verifySelfResolution` (lines 257-281).  Every iteration consumes at
least one lookup, so `lookups.length + 1` iterations are never used up
(`verifyLoopN_enough`): the loop ends by `break`, by a fatal exit, or is still waiting
when the supplied lookups run out. -/
def verifyLoop (taskHost podIP : String) (timer : Option Timer)
    (now : Nat) (lookups : List Attempt) : Run Unit :=
  verifyLoopN taskHost podIP timer (lookups.length + 1) now lookups

/-- The function `verifySelfResolution` (lines 240-287). -/
def verifySelfResolution (env : List String) (podIP : String) (resolveTimeout : Int)
    (now : Nat) (lookups : List Attempt) : Run Unit :=
  match parseTaskHost env with
  | none => Run.exit (Exit.fatal Fatal.missingTaskHostEnv) now lookups
  | some taskHost =>
    let timer := armTimer now resolveTimeout
    match verifyLoop taskHost podIP timer now lookups with
    | Run.ret _ now1 rest =>
      match stopAndDrain timer now1 with
      | .error p => Run.exit (Exit.panic p) now1 rest
      | .ok _ => Run.ret () now1 rest
    | Run.exit e now1 rest => Run.exit e now1 rest
    | Run.waiting => Run.waiting

/-! ## Environment redaction -/

/-- The constant `hiddenEnvKeyValue`. -/
def hiddenEnvKeyValue : String := "********"

/-- The representative of a rune under the simple case folding that `(?i)` applies: an
ASCII capital folds to its small letter, and the two runes outside ASCII whose folding
orbit holds an ASCII letter (the Kelvin sign with `k`, the long s with `s`) fold to that
letter.  Every other rune stands for itself. -/
def foldRune (c : Char) : Char :=
  if 65 ≤ c.toNat ∧ c.toNat ≤ 90 then Char.ofNat (c.toNat + 32)
  else if c.toNat = 0x212A then 'k'
  else if c.toNat = 0x17F then 's'
  else c

/-- A literal of the pattern matches at the start of the text, rune by rune up to case
folding. -/
def matchesAt : List Char → List Char → Bool
  | [], _ => true
  | _ :: _, [] => false
  | p :: ps, c :: cs => foldRune p == foldRune c && matchesAt ps cs

/-- A literal of the pattern matches somewhere in the text (the pattern is not anchored). -/
def matchesIn (pat : List Char) : List Char → Bool
  | [] => matchesAt pat []
  | c :: cs => matchesAt pat (c :: cs) || matchesIn pat cs

/-- The alternatives of the regular expression `blackListedEnvironKeys` (line 34). -/
def blackListedAlternatives : List String :=
  ["DCOS_SERVICE_ACCOUNT_CREDENTIAL", "credential", "password", "secret", "token"]

/-- The call `blackListedEnvironKeys.MatchString(key)`. -/
def blackListedEnvironKeys (key : String) : Bool :=
  blackListedAlternatives.any (fun alt => matchesIn alt.data key.data)

/-- The function `filterEnv` (lines 150-165), given what `os.Environ()` returns. -/
def filterEnv (printEnvInsecureEnabled : Bool) (defaultEnviron : List String) : List String :=
  if printEnvInsecureEnabled then defaultEnviron
  else
    defaultEnviron.foldl
      (fun filteredEnviron keyValue =>
        let key := splitHead keyValue '='
        if blackListedEnvironKeys key then
          filteredEnviron ++ [key ++ "=" ++ hiddenEnvKeyValue]
        else
          filteredEnviron ++ [keyValue])
      []

/-- The words the redaction is described by. -/
def sensitiveWords : List String := ["credential", "password", "secret", "token"]

/-- A rune of a key reads as the small letter `letter` of a word when case is ignored: its
lower-case form is that letter.  The Kelvin sign reads as a `k` and the long s as an `s`,
the two runes outside ASCII that Unicode case folding identifies with an ASCII letter. -/
def sameLetter (letter c : Char) : Prop :=
  c.toLower = letter ∨ (letter = 'k' ∧ c = Char.ofNat 0x212A) ∨
    (letter = 's' ∧ c = Char.ofNat 0x17F)

/-- The word occurs in the key when case is ignored: the key is some text, then a run of
runes that read letter by letter as the word, then some text. -/
def occursIgnoringCase (word key : String) : Prop :=
  ∃ pre mid post, key.data = pre ++ mid ++ post ∧ List.Forall₂ sameLetter word.data mid

/-- A key is sensitive: one of `sensitiveWords` occurs in it when case is ignored. -/
def Sensitive (key : String) : Prop :=
  ∃ word, word ∈ sensitiveWords ∧ occursIgnoringCase word key

/-- The text `key` is the key of the entry: what stands before the first `=`, or the whole
entry when it has no `=`. -/
def IsKeyOf (key entry : String) : Prop :=
  (∃ value, entry.data = key.data ++ '=' :: value ∧ '=' ∉ key.data) ∨
    ('=' ∉ entry.data ∧ key = entry)

/-! ## Templates -/

/-- The constant `configTemplatePrefix`. -/
def configTemplatePrefix : String := "CONFIG_TEMPLATE_"

/-- A value of the substitution context (`interface{}`): the program stores a bool or a
string. -/
inductive Value where
  | bool (b : Bool)
  | str (s : String)
  deriving DecidableEq, Repr

/-- A Go map with string keys, as the list of its entries; `GoMap.set` keeps keys unique. -/
abbrev GoMap (α : Type) := List (String × α)

/-- The read `m[k]` with presence flag. -/
def GoMap.get {α : Type} : GoMap α → String → Option α
  | [], _ => none
  | (k1, v) :: m, k => if k1 = k then some v else GoMap.get m k

/-- The assignment `m[k] = v`. -/
def GoMap.set {α : Type} : GoMap α → String → α → GoMap α
  | [], k, v => [(k, v)]
  | (k1, v1) :: m, k, v => if k1 = k then (k, v) :: m else (k1, v1) :: GoMap.set m k v

/-- The keys of a map. -/
def GoMap.keys {α : Type} (m : GoMap α) : List String := m.map Prod.fst

/-- The lower-case form of a rune as `strings.ToLower` computes it, on the runes whose
lower-case form is an ASCII letter: the ASCII capitals, the Kelvin sign (`k`) and the
dotted capital I (`i`).  Other runes with a lower-case form map outside ASCII and are left
as they are, which does not change whether the result equals an ASCII word. -/
def lowerRune (c : Char) : Char :=
  if 65 ≤ c.toNat ∧ c.toNat ≤ 90 then Char.ofNat (c.toNat + 32)
  else if c.toNat = 0x212A then 'k'
  else if c.toNat = 0x130 then 'i'
  else c

/-- The call `strings.ToLower(s)`, see `lowerRune`. -/
def toLower (s : String) : String := String.mk (s.data.map lowerRune)

/-- The loop of lines 323-331 of `renderTemplate`: the substitution context built from the
environment map, visiting its entries in the order of the list. -/
def buildVarMap (envMap : GoMap String) : GoMap Value :=
  envMap.foldl
    (fun varMap kv =>
      if toLower kv.2 = "false" then varMap.set kv.1 (Value.bool false)
      else varMap.set kv.1 (Value.str kv.2))
    []

/-- The library functions the template stage calls: `path.Join` and `mustache.Render`. -/
structure Lib where
  join : String → String → String
  render : String → GoMap Value → Except String String

/-- A path of the filesystem. -/
structure Node where
  /-- The path does not exist (the node only says whether it can be created). -/
  missing : Bool
  /-- The call `os.Stat` fails with this error, which is not a not-exist error. -/
  statErr : Option String
  /-- The answer of `info.Mode().IsRegular()`. -/
  regular : Bool
  /-- The answer of `info.Size()`. -/
  size : Int
  /-- The answer of `ioutil.ReadFile`. -/
  content : Except String String
  /-- The call `ioutil.WriteFile` fails with this error. -/
  writeErr : Option String

/-- The filesystem: the nodes by path; a path without a node does not exist and can be
created. -/
abbrev FS := GoMap Node

/-- The answer of `os.Stat`. -/
inductive StatResult where
  | ok (regular : Bool) (size : Int)
  | notExist
  | otherError (err : String)
  deriving DecidableEq, Repr

/-- The call `os.Stat(path)`. -/
def FS.stat (fs : FS) (path : String) : StatResult :=
  match GoMap.get fs path with
  | none => StatResult.notExist
  | some n =>
    if n.missing then StatResult.notExist
    else match n.statErr with
      | some e => StatResult.otherError e
      | none => StatResult.ok n.regular n.size

/-- The call `ioutil.ReadFile(path)`. -/
def FS.readFile (fs : FS) (path : String) : Except String String :=
  match GoMap.get fs path with
  | none => .error "no such file or directory"
  | some n => if n.missing then .error "no such file or directory" else n.content

/-- The call `ioutil.WriteFile(path, data, 0666)`: the file is created or overwritten. -/
def FS.writeFile (fs : FS) (path data : String) : Except String FS :=
  let written : Node := ⟨false, none, true, data.utf8ByteSize, .ok data, none⟩
  match GoMap.get fs path with
  | none => .ok (GoMap.set fs path written)
  | some n =>
    match n.writeErr with
    | some e => .error e
    | none => .ok (GoMap.set fs path written)

/-- A file operation the template stage performs. -/
inductive FileOp where
  | stat (path : String)
  | read (path : String)
  | write (path data : String)
  deriving DecidableEq, Repr

/-- The state of the template stage: the filesystem and the file operations performed so
far, oldest first. -/
structure World where
  fs : FS
  trace : List FileOp

/-- Record a file operation. -/
def World.record (w : World) (ev : FileOp) : World := ⟨w.fs, w.trace ++ [ev]⟩

/-- The outcome of running a piece of the template stage. -/
inductive TRun (α : Type) where
  /-- Returned `val` to the caller. -/
  | ret (val : α) (w : World)
  /-- The process ended. -/
  | exit (e : Exit) (w : World)

/-- The file operations performed up to the end of the run. -/
def TRun.trace {α : Type} : TRun α → List FileOp
  | TRun.ret _ w => w.trace
  | TRun.exit _ w => w.trace

/-- How the run ended: `none` when it returned, the exit otherwise. -/
def TRun.exit? {α : Type} : TRun α → Option Exit
  | TRun.ret _ _ => none
  | TRun.exit e _ => some e

/-- The function `openTemplate` (lines 291-319). -/
def openTemplate (lib : Lib) (env : List String) (inPath source : String)
    (templateMaxBytes : Int) (w : World) : TRun String :=
  match lookupEnv env "MESOS_SANDBOX" with
  | none => TRun.exit (Exit.fatal Fatal.missingSandbox) w
  | some sandboxDir =>
    let templatePath := lib.join sandboxDir inPath
    let w1 := w.record (FileOp.stat templatePath)
    match w.fs.stat templatePath with
    | StatResult.notExist =>
      TRun.exit (Exit.fatal (Fatal.pathDoesNotExist source templatePath)) w1
    | StatResult.otherError _ =>
      -- `info` is nil, and `info.Mode()` is called on it
      TRun.exit (Exit.panic Panic.nilDereference) w1
    | StatResult.ok regular size =>
      if !regular then
        TRun.exit (Exit.fatal (Fatal.notRegularFile source templatePath)) w1
      else if templateMaxBytes != 0 && size > templateMaxBytes then
        TRun.exit (Exit.fatal (Fatal.exceedsMaximum templatePath source size templateMaxBytes)) w1
      else
        let w2 := w1.record (FileOp.read templatePath)
        match w.fs.readFile templatePath with
        | .error e => TRun.exit (Exit.fatal (Fatal.readFailed source templatePath e)) w2
        | .ok data => TRun.ret data w2

/-- The function `renderTemplate` (lines 321-349). -/
def renderTemplate (lib : Lib) (origContent outPath : String) (envMap : GoMap String)
    (source : String) (w : World) : TRun Unit :=
  let varMap := buildVarMap envMap
  match lib.render origContent varMap with
  | .error e => TRun.exit (Exit.fatal (Fatal.renderFailed source outPath e)) w
  | .ok newContent =>
    let trace := w.trace ++ [FileOp.write outPath newContent]
    match w.fs.writeFile outPath newContent with
    | .error e => TRun.exit (Exit.fatal (Fatal.writeFailed source outPath e)) ⟨w.fs, trace⟩
    | .ok fs1 => TRun.ret () ⟨fs1, trace⟩

/-- The first loop of `renderTemplates` (lines 353-357): the map of all entries.  Reading
`keyVal[1]` of an entry without `=` panics. -/
def buildEnvMap : List String → GoMap String → Except Panic (GoMap String)
  | [], envMap => .ok envMap
  | entry :: environ, envMap =>
    let keyVal := splitN2 entry '='
    match keyVal[0]?, keyVal[1]? with
    | some key, some val => buildEnvMap environ (envMap.set key val)
    | _, _ => .error (Panic.indexOutOfRange 1 keyVal.length)

/-- The second loop of `renderTemplates` (lines 360-375), over the entries still to visit. -/
def renderEntries (lib : Lib) (env : List String) (templateMaxBytes : Int)
    (envMap : GoMap String) : List String → World → TRun Unit
  | [], w => TRun.ret () w
  | entry :: entries, w =>
    if !hasPrefix entry configTemplatePrefix then
      renderEntries lib env templateMaxBytes envMap entries w
    else
      let envKeyVal := splitN2 entry '='
      match envKeyVal[0]?, envKeyVal[1]? with
      | some key, some val =>
        let srcDest := splitN2 val ','
        if srcDest.length != 2 then
          TRun.exit (Exit.fatal (Fatal.invalidTemplateValue key val)) w
        else
          match srcDest[0]?, srcDest[1]? with
          | some src, some dest =>
            let source := "envvar '" ++ key ++ "'"
            match openTemplate lib env src source templateMaxBytes w with
            | TRun.exit e w1 => TRun.exit e w1
            | TRun.ret data w1 =>
              match renderTemplate lib data dest envMap source w1 with
              | TRun.exit e w2 => TRun.exit e w2
              | TRun.ret _ w2 => renderEntries lib env templateMaxBytes envMap entries w2
          | _, _ => TRun.exit (Exit.panic (Panic.indexOutOfRange 1 srcDest.length)) w
      | _, _ => TRun.exit (Exit.panic (Panic.indexOutOfRange 1 envKeyVal.length)) w

/-- The function `renderTemplates` (lines 351-376), given what `os.Environ()` returns. -/
def renderTemplates (lib : Lib) (templateMaxBytes : Int) (env : List String) (w : World) :
    TRun Unit :=
  match buildEnvMap env [] with
  | .error p => TRun.exit (Exit.panic p) w
  | .ok envMap => renderEntries lib env templateMaxBytes envMap env w

/-- The declarations of an environment in enumeration order: for each entry that starts
with `CONFIG_TEMPLATE_` and reads `key=src,dest` (cut at the first `=` and then at the
first comma), the pair of `src` and `dest`. -/
def declarations (env : List String) : List (String × String) :=
  env.filterMap (fun entry =>
    if hasPrefix entry configTemplatePrefix then
      match cutAt '=' entry.data with
      | none => none
      | some (_, val) =>
        match cutAt ',' val with
        | none => none
        | some (src, dest) => some (String.mk src, String.mk dest)
    else none)

/-- The template sources located, oldest first: the paths given to `os.Stat`. -/
def located (trace : List FileOp) : List String :=
  trace.filterMap (fun op =>
    match op with
    | FileOp.stat path => some path
    | _ => none)

/-- The destinations written, oldest first: the paths given to `ioutil.WriteFile`. -/
def written (trace : List FileOp) : List String :=
  trace.filterMap (fun op =>
    match op with
    | FileOp.write path _ => some path
    | _ => none)

/-- A stand-in for the library on concrete runs: paths are joined with a slash and a
template renders to itself. -/
def plainLib : Lib := ⟨fun dir file => dir ++ "/" ++ file, fun text _ => .ok text⟩

/-- A regular file with the given content. -/
def regularFile (data : String) : Node := ⟨false, none, true, data.utf8ByteSize, .ok data, none⟩

/-! ## Theorems: name resolution -/

theorem clockAfter_cons (now : Nat) (a : Attempt) (l : List Attempt) (h : l ≠ []) :
    clockAfter now (a :: l) = clockAfter (now + a.took + resolveRetryDelay) l := by
  cases l with
  | nil => exact absurd rfl h
  | cons b more => rfl

theorem isExpired_some (t : Timer) (now : Nat) :
    isExpired (some t) now = .ok (decide (t.fireAt ≤ now)) := by
  unfold isExpired Timer.poll
  by_cases h : t.fireAt ≤ now <;> simp [h]

theorem resolveHost_cons_ok (host : String) (timer : Option Timer) (now : Nat)
    (a : Attempt) (l : List Attempt) (h : a.failed = false) :
    resolveHost host timer now (a :: l) = Run.ret a.result (now + a.took) l := by
  simp only [Attempt.failed, Bool.or_eq_false_iff] at h
  simp [resolveHost, h.1, h.2]

theorem resolveHost_cons_failed (host : String) (timer : Option Timer) (now : Nat)
    (a : Attempt) (l : List Attempt) (h : a.failed = true) :
    resolveHost host timer now (a :: l) =
      match isExpired timer (now + a.took) with
      | .error f => Run.exit (Exit.fatal f) (now + a.took) l
      | .ok true => Run.exit (Exit.fatal (Fatal.timeRanOutResolving host)) (now + a.took) l
      | .ok false => resolveHost host timer (now + a.took + resolveRetryDelay) l := by
  simp only [Attempt.failed, Bool.or_eq_true] at h
  by_cases h1 : a.err.isSome = true
  · simp [resolveHost, h1]
  · have h2 : (a.result.length == 0) = true := by
      rcases h with h | h
      · exact absurd h h1
      · exact h
    simp [resolveHost, h1, h2]

theorem resolveHost_armed_failed (host : String) (t : Timer) (now : Nat)
    (a : Attempt) (l : List Attempt) (h : a.failed = true) :
    resolveHost host (some t) now (a :: l) =
      if t.fireAt ≤ now + a.took then
        Run.exit (Exit.fatal (Fatal.timeRanOutResolving host)) (now + a.took) l
      else resolveHost host (some t) (now + a.took + resolveRetryDelay) l := by
  rw [resolveHost_cons_failed host (some t) now a l h, isExpired_some]
  by_cases h1 : t.fireAt ≤ now + a.took <;> simp [h1]

/-- C4. With an armed deadline `resolveHost` ends the process exactly at the first expiry
check at which the deadline has elapsed: the exit is the time-ran-out failure naming the
host, the attempt just made and all earlier ones failed, at every earlier check the
deadline was still pending, the clock is the reading of that check (no sleep follows)
and the remaining lookups are untouched (no further attempt is made). -/
theorem resolveHost_fails_exactly_at_expiry (host : String) (t : Timer) (now : Nat) (lookups : List Attempt)
    (e : Exit) (now1 : Nat) (rest : List Attempt) :
    resolveHost host (some t) now lookups = Run.exit e now1 rest ↔
      ∃ pre a, lookups = pre ++ a :: rest ∧
        (∀ b ∈ pre, b.failed = true) ∧ a.failed = true ∧
        (∀ k, k < pre.length → clockAfter now (pre.take (k + 1)) < t.fireAt) ∧
        now1 = clockAfter now (pre ++ [a]) ∧ t.fireAt ≤ now1 ∧
        e = Exit.fatal (Fatal.timeRanOutResolving host) := by
  induction lookups generalizing now with
  | nil =>
    constructor
    · intro h; simp [resolveHost] at h
    · rintro ⟨pre, a, h, _⟩; simp at h
  | cons c l ih =>
    cases hc : c.failed with
    | false =>
      rw [resolveHost_cons_ok host (some t) now c l hc]
      constructor
      · intro h; simp at h
      · rintro ⟨pre, a, h, hpre, ha, _⟩
        exfalso
        cases pre with
        | nil =>
          simp at h
          rw [h.1] at hc; rw [hc] at ha; exact Bool.noConfusion ha
        | cons p pre =>
          simp at h
          have := hpre p (List.mem_cons_self _ _)
          rw [← h.1, hc] at this; exact Bool.noConfusion this
    | true =>
      rw [resolveHost_armed_failed host t now c l hc]
      by_cases hx : t.fireAt ≤ now + c.took
      · rw [if_pos hx]
        constructor
        · intro h
          simp only [Run.exit.injEq] at h
          obtain ⟨he, hn, hr⟩ := h
          refine ⟨[], c, by simp [hr], by simp, hc, by simp, ?_, ?_, he.symm⟩
          · simp [clockAfter, hn]
          · rw [← hn]; exact hx
        · rintro ⟨pre, a, h, hpre, ha, hpend, hn, hf, he⟩
          cases pre with
          | nil =>
            simp at h
            simp [clockAfter] at hn
            simp [he, hn, h.1, h.2]
          | cons p pre =>
            exfalso
            simp at h
            have := hpend 0 (by simp)
            simp [clockAfter] at this
            rw [← h.1] at this
            omega
      · rw [if_neg hx, ih]
        constructor
        · rintro ⟨pre, a, h, hpre, ha, hpend, hn, hf, he⟩
          refine ⟨c :: pre, a, by simp [h], ?_, ha, ?_, ?_, hf, he⟩
          · intro b hb
            rcases List.mem_cons.mp hb with hb | hb
            · rw [hb]; exact hc
            · exact hpre b hb
          · intro k hk
            cases k with
            | zero => simp [clockAfter]; omega
            | succ k =>
              have hk1 : k < pre.length := by simpa using hk
              have hne : pre.take (k + 1) ≠ [] := by
                cases pre with
                | nil => simp at hk1
                | cons _ _ => simp
              rw [List.take_succ_cons, clockAfter_cons _ _ _ hne]
              exact hpend k hk1
          · rw [hn, List.cons_append, clockAfter_cons _ _ _ (by simp)]
        · rintro ⟨pre, a, h, hpre, ha, hpend, hn, hf, he⟩
          cases pre with
          | nil =>
            exfalso
            simp at h
            simp [clockAfter] at hn
            rw [hn, ← h.1] at hf
            exact hx hf
          | cons p pre =>
            simp at h
            refine ⟨pre, a, h.2, ?_, ha, ?_, ?_, hf, he⟩
            · intro b hb; exact hpre b (List.mem_cons_of_mem _ hb)
            · intro k hk
              have := hpend (k + 1) (by simpa using hk)
              have hne : pre.take (k + 1) ≠ [] := by
                cases pre with
                | nil => simp at hk
                | cons _ _ => simp
              rw [List.take_succ_cons, clockAfter_cons _ _ _ hne, ← h.1] at this
              exact this
            · rw [hn, List.cons_append, clockAfter_cons _ _ _ (by simp), ← h.1]

theorem isExpired_total (timer : Option Timer) (now : Nat) :
    isExpired timer now = .ok true ∨ isExpired timer now = .ok false := by
  cases timer with
  | none => right; rfl
  | some t =>
    rw [isExpired_some]
    by_cases h : t.fireAt ≤ now <;> simp [h]

/-- C1. Whatever the host, the deadline (armed or absent) and the lookup outcomes,
`resolveHost` returns a list `r` exactly when `r` is the non-empty result of an attempt
that completed without error, every attempt before it errored or yielded zero addresses
and was retried because the deadline had not expired at its check: the list returned is
never empty and is the result of the first successful attempt. -/
theorem resolveHost_returns_first_success (host : String) (timer : Option Timer) (now : Nat)
    (lookups : List Attempt) (r : List String) (now1 : Nat) (rest : List Attempt) :
    resolveHost host timer now lookups = Run.ret r now1 rest ↔
      r ≠ [] ∧ ∃ pre a, lookups = pre ++ a :: rest ∧
        (∀ b ∈ pre, b.err.isSome = true ∨ b.result = []) ∧
        a.err = none ∧ a.result = r ∧
        (∀ k, k < pre.length →
          isExpired timer (clockAfter now (pre.take (k + 1))) = .ok false) ∧
        now1 = clockAfter now (pre ++ [a]) := by
  have failed_iff : ∀ b : Attempt, b.failed = true ↔ (b.err.isSome = true ∨ b.result = []) := by
    intro b; simp [Attempt.failed]
  induction lookups generalizing now with
  | nil =>
    constructor
    · intro h; simp [resolveHost] at h
    · rintro ⟨_, pre, a, h, _⟩; simp at h
  | cons c l ih =>
    cases hc : c.failed with
    | false =>
      rw [resolveHost_cons_ok host timer now c l hc]
      have hc1 : c.err = none ∧ c.result ≠ [] := by
        simp [Attempt.failed] at hc
        exact hc
      constructor
      · intro h
        simp only [Run.ret.injEq] at h
        obtain ⟨hr, hn, hl⟩ := h
        refine ⟨hr ▸ hc1.2, [], c, by simp [hl], by simp, hc1.1, hr, by simp, ?_⟩
        simp [clockAfter, hn]
      · rintro ⟨_, pre, a, h, hpre, ha, har, hpend, hn⟩
        cases pre with
        | nil =>
          simp at h
          simp [clockAfter] at hn
          simp [hn, h.1, h.2, har]
        | cons p pre =>
          exfalso
          simp at h
          have := (failed_iff p).mpr (hpre p (List.mem_cons_self _ _))
          rw [← h.1, hc] at this; exact Bool.noConfusion this
    | true =>
      rw [resolveHost_cons_failed host timer now c l hc]
      rcases isExpired_total timer (now + c.took) with hx | hx
      · rw [hx]
        constructor
        · intro h; simp at h
        · rintro ⟨hr, pre, a, h, hpre, ha, har, hpend, hn⟩
          exfalso
          cases pre with
          | nil =>
            simp at h
            have hf := (failed_iff c).mp hc
            rw [h.1, ha, har] at hf
            simp at hf
            exact hr hf
          | cons p pre =>
            simp at h
            have := hpend 0 (by simp)
            simp [clockAfter] at this
            rw [← h.1, hx] at this
            simp at this
      · rw [hx]
        simp only []
        constructor
        · intro h0
          obtain ⟨hr, pre, a, h, hpre, ha, har, hpend, hn⟩ :=
            (ih (now + c.took + resolveRetryDelay)).mp h0
          refine ⟨hr, c :: pre, a, by simp [h], ?_, ha, har, ?_, ?_⟩
          · intro b hb
            rcases List.mem_cons.mp hb with hb | hb
            · rw [hb]; exact (failed_iff c).mp hc
            · exact hpre b hb
          · intro k hk
            cases k with
            | zero => simpa [clockAfter] using hx
            | succ k =>
              have hk1 : k < pre.length := by simpa using hk
              have hne : pre.take (k + 1) ≠ [] := by
                cases pre with
                | nil => simp at hk1
                | cons _ _ => simp
              rw [List.take_succ_cons, clockAfter_cons _ _ _ hne]
              exact hpend k hk1
          · rw [hn, List.cons_append, clockAfter_cons _ _ _ (by simp)]
        · rintro ⟨hr, pre, a, h, hpre, ha, har, hpend, hn⟩
          cases pre with
          | nil =>
            exfalso
            simp at h
            have hf := (failed_iff c).mp hc
            rw [h.1, ha, har] at hf
            simp at hf
            exact hr hf
          | cons p pre =>
            simp at h
            refine (ih (now + c.took + resolveRetryDelay)).mpr
              ⟨hr, pre, a, h.2, ?_, ha, har, ?_, ?_⟩
            · intro b hb; exact hpre b (List.mem_cons_of_mem _ hb)
            · intro k hk
              have := hpend (k + 1) (by simpa using hk)
              have hne : pre.take (k + 1) ≠ [] := by
                cases pre with
                | nil => simp at hk
                | cons _ _ => simp
              rw [List.take_succ_cons, clockAfter_cons _ _ _ hne, ← h.1] at this
              exact this
            · rw [hn, List.cons_append, clockAfter_cons _ _ _ (by simp), ← h.1]

theorem resolveHost_ret_shorter (host : String) (timer : Option Timer) (now : Nat)
    (lookups : List Attempt) (r : List String) (now1 : Nat) (rest : List Attempt)
    (h : resolveHost host timer now lookups = Run.ret r now1 rest) :
    rest.length < lookups.length := by
  induction lookups generalizing now with
  | nil => simp [resolveHost] at h
  | cons c l ih =>
    cases hc : c.failed with
    | false =>
      rw [resolveHost_cons_ok host timer now c l hc] at h
      simp only [Run.ret.injEq] at h
      rw [← h.2.2]
      simp
    | true =>
      rw [resolveHost_cons_failed host timer now c l hc] at h
      rcases isExpired_total timer (now + c.took) with hx | hx
      · rw [hx] at h; simp at h
      · rw [hx] at h
        have := ih _ h
        simp only [List.length_cons]
        omega

theorem single_match_iff (resolvedIPs : List String) (podIP : String) :
    ((resolvedIPs.length != 1) = false ∧ (resolvedIPs.head? != some podIP) = false) ↔
      resolvedIPs = [podIP] := by
  cases resolvedIPs with
  | nil => simp
  | cons x xs =>
    cases xs with
    | nil => simp
    | cons y ys => simp

theorem verifyLoopN_step (taskHost podIP : String) (timer : Option Timer) (n now : Nat)
    (lookups : List Attempt) (resolvedIPs : List String) (now1 : Nat) (rest : List Attempt)
    (hres : resolveHost taskHost timer now lookups = Run.ret resolvedIPs now1 rest) :
    verifyLoopN taskHost podIP timer (n + 1) now lookups =
      if resolvedIPs = [podIP] then Run.ret () now1 rest
      else match isExpired timer now1 with
        | .error f => Run.exit (Exit.fatal f) now1 rest
        | .ok true => Run.exit (Exit.fatal (Fatal.timeRanOutVerifying taskHost podIP)) now1 rest
        | .ok false => verifyLoopN taskHost podIP timer n (now1 + resolveRetryDelay) rest := by
  rw [verifyLoopN, hres]
  simp only []
  by_cases h : resolvedIPs = [podIP]
  · rw [if_pos h]
    have := (single_match_iff resolvedIPs podIP).mpr h
    simp [this.1, this.2]
  · rw [if_neg h]
    have hne : ¬ ((resolvedIPs.length != 1) = false ∧ (resolvedIPs.head? != some podIP) = false) :=
      fun hc => h ((single_match_iff resolvedIPs podIP).mp hc)
    by_cases h1 : (resolvedIPs.length != 1) = true
    · rw [if_pos h1]
    · rw [if_neg h1]
      have h1 : (resolvedIPs.length != 1) = false := by simpa using h1
      have h2 : (resolvedIPs.head? != some podIP) = true := by
        by_contra hc
        exact hne ⟨h1, by simpa using hc⟩
      rw [if_pos h2]

theorem verifyLoopN_ret_shorter (taskHost podIP : String) (timer : Option Timer) (n now : Nat)
    (lookups : List Attempt) (now1 : Nat) (rest : List Attempt)
    (h : verifyLoopN taskHost podIP timer n now lookups = Run.ret () now1 rest) :
    rest.length < lookups.length := by
  induction n generalizing now lookups with
  | zero => simp [verifyLoopN] at h
  | succ n ih =>
    cases hres : resolveHost taskHost timer now lookups with
    | waiting => simp [verifyLoopN, hres] at h
    | exit e n1 r1 => simp [verifyLoopN, hres] at h
    | ret ips n1 r1 =>
      have hlt := resolveHost_ret_shorter _ _ _ _ _ _ _ hres
      rw [verifyLoopN_step _ _ _ _ _ _ _ _ _ hres] at h
      by_cases hm : ips = [podIP]
      · rw [if_pos hm] at h
        simp only [Run.ret.injEq] at h
        rw [← h.2.2]; exact hlt
      · rw [if_neg hm] at h
        rcases isExpired_total timer n1 with hx | hx
        · rw [hx] at h; simp at h
        · rw [hx] at h
          exact Nat.lt_trans (ih _ _ h) hlt

theorem verifyLoopN_enough (taskHost podIP : String) (timer : Option Timer) (n m now : Nat)
    (lookups : List Attempt) (hn : lookups.length < n) (hm : lookups.length < m) :
    verifyLoopN taskHost podIP timer n now lookups =
      verifyLoopN taskHost podIP timer m now lookups := by
  induction n generalizing m now lookups with
  | zero => omega
  | succ n ih =>
    cases m with
    | zero => omega
    | succ m =>
      cases hres : resolveHost taskHost timer now lookups with
      | waiting => simp [verifyLoopN, hres]
      | exit e n1 r1 => simp [verifyLoopN, hres]
      | ret ips n1 r1 =>
        have hlt := resolveHost_ret_shorter _ _ _ _ _ _ _ hres
        rw [verifyLoopN_step _ _ _ _ _ _ _ _ _ hres, verifyLoopN_step _ _ _ _ _ _ _ _ _ hres]
        rw [ih m (n1 + resolveRetryDelay) r1 (by omega) (by omega)]

theorem verifyLoop_step (taskHost podIP : String) (timer : Option Timer) (now : Nat)
    (lookups : List Attempt) (resolvedIPs : List String) (now1 : Nat) (rest : List Attempt)
    (hres : resolveHost taskHost timer now lookups = Run.ret resolvedIPs now1 rest) :
    verifyLoop taskHost podIP timer now lookups =
      if resolvedIPs = [podIP] then Run.ret () now1 rest
      else match isExpired timer now1 with
        | .error f => Run.exit (Exit.fatal f) now1 rest
        | .ok true => Run.exit (Exit.fatal (Fatal.timeRanOutVerifying taskHost podIP)) now1 rest
        | .ok false => verifyLoop taskHost podIP timer (now1 + resolveRetryDelay) rest := by
  have hlt := resolveHost_ret_shorter _ _ _ _ _ _ _ hres
  unfold verifyLoop
  rw [verifyLoopN_step _ _ _ _ _ _ _ _ _ hres]
  rw [verifyLoopN_enough taskHost podIP timer lookups.length (rest.length + 1)
    (now1 + resolveRetryDelay) rest hlt (by omega)]

/-- C2. At an iteration of the loop of `verifySelfResolution` whose call of `resolveHost`
returned `resolvedIPs`, the loop leaves with success at that iteration (at its clock, with
the lookups it left) exactly when `resolvedIPs` has one entry and that entry is `podIP`;
for every other list, when the deadline has not expired at that iteration's check, the
loop does not fail: it sleeps `resolveRetryDelay` and runs its next iteration on the
remaining lookups.  With an armed deadline the function returns normally exactly when its
loop leaves with success. -/
theorem verifySelfResolution_succeeds_iff (taskHost podIP : String) (timer : Option Timer)
    (now : Nat) (lookups : List Attempt) (resolvedIPs : List String) (now1 : Nat)
    (rest : List Attempt)
    (hres : resolveHost taskHost timer now lookups = Run.ret resolvedIPs now1 rest) :
    (verifyLoop taskHost podIP timer now lookups = Run.ret () now1 rest ↔
        (resolvedIPs.length = 1 ∧ resolvedIPs.head? = some podIP)) ∧
    ((resolvedIPs.length = 1 ∧ resolvedIPs.head? = some podIP) ↔ resolvedIPs = [podIP]) ∧
    (resolvedIPs ≠ [podIP] → isExpired timer now1 = .ok false →
        verifyLoop taskHost podIP timer now lookups =
          verifyLoop taskHost podIP timer (now1 + resolveRetryDelay) rest) ∧
    (∀ (env : List String) (resolveTimeout : Int) (start now2 : Nat) (all rest2 : List Attempt),
        resolveTimeout ≠ 0 → parseTaskHost env = some taskHost →
        (verifySelfResolution env podIP resolveTimeout start all = Run.ret () now2 rest2 ↔
          verifyLoop taskHost podIP (armTimer start resolveTimeout) start all =
            Run.ret () now2 rest2)) := by
  have hsingle : (resolvedIPs.length = 1 ∧ resolvedIPs.head? = some podIP) ↔
      resolvedIPs = [podIP] := by
    have := single_match_iff resolvedIPs podIP
    simpa using this
  refine ⟨?_, hsingle, ?_, ?_⟩
  · rw [hsingle, verifyLoop_step _ _ _ _ _ _ _ _ hres]
    constructor
    · intro h
      by_contra hne
      rw [if_neg hne] at h
      rcases isExpired_total timer now1 with hx | hx
      · rw [hx] at h; simp at h
      · rw [hx] at h
        have := verifyLoopN_ret_shorter _ _ _ _ _ _ _ _ h
        omega
    · intro h; rw [if_pos h]
  · intro hne hx
    rw [verifyLoop_step _ _ _ _ _ _ _ _ hres, if_neg hne, hx]
  · intro env resolveTimeout start now2 all rest2 hz henv
    have harm : armTimer start resolveTimeout = some (newTimer start resolveTimeout) := by
      simp [armTimer, hz]
    unfold verifySelfResolution
    rw [henv]
    simp only [harm]
    cases hl : verifyLoop taskHost podIP (some (newTimer start resolveTimeout)) start all with
    | waiting => simp
    | exit e n1 r1 => simp
    | ret u n1 r1 => simp [stopAndDrain]

/-- Witness for C2: a first lookup answering exactly `[podIP]` ends the loop at once. -/
theorem verifySelfResolution_succeeds_iff_witness :
    resolveHost "svc.example.com" (some ⟨100⟩) 0 [⟨1, none, ["10.0.0.7"]⟩] =
        Run.ret ["10.0.0.7"] 1 [] ∧
      verifyLoop "svc.example.com" "10.0.0.7" (some ⟨100⟩) 0 [⟨1, none, ["10.0.0.7"]⟩] =
        Run.ret () 1 [] :=
  ⟨by decide,
   (verifySelfResolution_succeeds_iff "svc.example.com" "10.0.0.7" (some ⟨100⟩) 0
      [⟨1, none, ["10.0.0.7"]⟩] ["10.0.0.7"] 1 [] (by decide)).1.mpr (by decide)⟩

theorem resolveHost_none_no_exit (host : String) (now : Nat) (lookups : List Attempt)
    (e : Exit) (now1 : Nat) (rest : List Attempt) :
    resolveHost host none now lookups ≠ Run.exit e now1 rest := by
  induction lookups generalizing now with
  | nil => simp [resolveHost]
  | cons c l ih =>
    cases hc : c.failed with
    | false => rw [resolveHost_cons_ok host none now c l hc]; simp
    | true =>
      rw [resolveHost_cons_failed host none now c l hc]
      simp only [isExpired]
      exact ih _

theorem resolveEach_none_no_exit (hosts : List String) (now : Nat) (lookups : List Attempt)
    (e : Exit) (now1 : Nat) (rest : List Attempt) :
    resolveEach none hosts now lookups ≠ Run.exit e now1 rest := by
  induction hosts generalizing now lookups with
  | nil => simp [resolveEach]
  | cons h hs ih =>
    cases hres : resolveHost h none now lookups with
    | waiting => simp [resolveEach, hres]
    | exit e1 n1 r1 => exact absurd hres (resolveHost_none_no_exit _ _ _ _ _ _)
    | ret ips n1 r1 =>
      simp only [resolveEach, hres]
      exact ih _ _

/-- C3. With a resolve timeout of zero `waitForResolve` never reports a fatal error, but it
never returns to its caller either: once every listed host has resolved, the clean-up
calls `Stop` through the nil timer and the process ends in a nil-dereference panic.  The
same happens in `verifySelfResolution` once the task's name resolves to `podIP`. -/
theorem zero_timeout_cleanup_panics :
    (∀ (hosts : List String) (now : Nat) (lookups : List Attempt) (f : Fatal) (now1 : Nat)
        (rest : List Attempt),
        waitForResolve hosts 0 now lookups ≠ Run.exit (Exit.fatal f) now1 rest) ∧
    (∀ (hosts : List String) (now : Nat) (lookups : List Attempt) (now1 : Nat)
        (rest : List Attempt),
        resolveEach none hosts now lookups = Run.ret () now1 rest →
        waitForResolve hosts 0 now lookups =
          Run.exit (Exit.panic Panic.nilDereference) now1 rest) ∧
    (∀ (env : List String) (taskHost podIP : String) (now : Nat) (lookups : List Attempt)
        (now1 : Nat) (rest : List Attempt),
        parseTaskHost env = some taskHost →
        verifyLoop taskHost podIP none now lookups = Run.ret () now1 rest →
        verifySelfResolution env podIP 0 now lookups =
          Run.exit (Exit.panic Panic.nilDereference) now1 rest) ∧
    waitForResolve ["svc.example.com"] 0 0 [⟨5, none, ["10.0.0.7"]⟩] =
      Run.exit (Exit.panic Panic.nilDereference) 5 [] ∧
    verifySelfResolution ["TASK_NAME=svc", "FRAMEWORK_HOST=example.com"] "10.0.0.7" 0 0
        [⟨5, none, ["10.0.0.7"]⟩] =
      Run.exit (Exit.panic Panic.nilDereference) 5 [] := by
  refine ⟨?_, ?_, ?_, by decide, by decide⟩
  · intro hosts now lookups f now1 rest
    unfold waitForResolve
    have harm : armTimer now 0 = none := by simp [armTimer]
    simp only [harm]
    cases hres : resolveEach none hosts now lookups with
    | waiting => simp
    | exit e n1 r1 => exact absurd hres (resolveEach_none_no_exit _ _ _ _ _ _)
    | ret u n1 r1 => simp [stopAndDrain]
  · intro hosts now lookups now1 rest hres
    unfold waitForResolve
    have harm : armTimer now 0 = none := by simp [armTimer]
    simp only [harm, hres, stopAndDrain]
  · intro env taskHost podIP now lookups now1 rest henv hloop
    unfold verifySelfResolution
    have harm : armTimer now 0 = none := by simp [armTimer]
    simp only [henv, harm, hloop, stopAndDrain]

/-! ## Theorems: templates -/

theorem GoMap.set_new {α : Type} (m : GoMap α) (k : String) (v : α) (h : k ∉ m.keys) :
    m.set k v = m ++ [(k, v)] := by
  induction m with
  | nil => rfl
  | cons p m ih =>
    obtain ⟨k1, v1⟩ := p
    simp only [GoMap.keys, List.map_cons, List.mem_cons, not_or] at h
    have h1 : ¬ k1 = k := fun e => h.1 e.symm
    simp only [GoMap.set, if_neg h1, List.cons_append]
    rw [ih h.2]

theorem GoMap.get_map {α β : Type} (f : α → β) (m : GoMap α) (k : String) :
    GoMap.get (m.map (fun kv => (kv.1, f kv.2))) k = (GoMap.get m k).map f := by
  induction m with
  | nil => rfl
  | cons p m ih =>
    obtain ⟨k1, v1⟩ := p
    by_cases h : k1 = k
    · simp [GoMap.get, h]
    · simp only [List.map_cons, GoMap.get, if_neg h]
      exact ih

theorem foldl_set_fresh {α β : Type} (g : α → β) (l : GoMap α) (acc : GoMap β)
    (hnd : l.keys.Nodup) (hdis : ∀ k ∈ l.keys, k ∉ acc.keys) :
    l.foldl (fun m kv => m.set kv.1 (g kv.2)) acc = acc ++ l.map (fun kv => (kv.1, g kv.2)) := by
  induction l generalizing acc with
  | nil => simp
  | cons p l ih =>
    obtain ⟨k, v⟩ := p
    simp only [GoMap.keys, List.map_cons, List.nodup_cons] at hnd
    simp only [List.foldl_cons, List.map_cons]
    rw [GoMap.set_new acc k (g v) (hdis k (by simp [GoMap.keys]))]
    rw [ih (acc ++ [(k, g v)]) hnd.2]
    · simp
    · intro k1 hk1
      simp only [GoMap.keys, List.map_append, List.map_cons, List.map_nil, List.mem_append,
        List.mem_singleton, not_or]
      refine ⟨hdis k1 (by simp only [GoMap.keys, List.map_cons]; exact List.mem_cons_of_mem _ hk1), ?_⟩
      intro e
      exact hnd.1 (e ▸ hk1)

theorem buildVarMap_eq_map (envMap : GoMap String) (hnd : envMap.keys.Nodup) :
    buildVarMap envMap =
      envMap.map (fun kv =>
        (kv.1, if toLower kv.2 = "false" then Value.bool false else Value.str kv.2)) := by
  have hfun : (fun (varMap : GoMap Value) (kv : String × String) =>
        if toLower kv.2 = "false" then varMap.set kv.1 (Value.bool false)
        else varMap.set kv.1 (Value.str kv.2)) =
      (fun varMap kv => varMap.set kv.1
        ((fun v => if toLower v = "false" then Value.bool false else Value.str v) kv.2)) := by
    funext varMap kv
    by_cases h : toLower kv.2 = "false" <;> simp [h]
  unfold buildVarMap
  rw [hfun]
  have h := foldl_set_fresh
    (fun v => if toLower v = "false" then Value.bool false else Value.str v) envMap [] hnd
    (by simp [GoMap.keys])
  rw [List.nil_append] at h
  exact h

/-- C5. For every environment map (a Go map: its keys are distinct), the substitution
context that `renderTemplate` builds has exactly the keys of the environment map, and for
every key it holds the boolean false when the lower-cased value equals `false` and
otherwise the original string unchanged.  So `False`, `FALSE` and `false` are all stored
as the boolean false, while `falseish`, `0`, `true` and the empty string are stored
verbatim. -/
theorem buildVarMap_coerces_false (envMap : GoMap String) (hnd : envMap.keys.Nodup) :
    (buildVarMap envMap).keys = envMap.keys ∧
    (∀ k, GoMap.get envMap k = none → GoMap.get (buildVarMap envMap) k = none) ∧
    (∀ k v, GoMap.get envMap k = some v →
      (toLower v = "false" → GoMap.get (buildVarMap envMap) k = some (Value.bool false)) ∧
      (toLower v ≠ "false" → GoMap.get (buildVarMap envMap) k = some (Value.str v))) ∧
    (∀ k : String, buildVarMap [(k, "False")] = [(k, Value.bool false)] ∧
      buildVarMap [(k, "FALSE")] = [(k, Value.bool false)] ∧
      buildVarMap [(k, "false")] = [(k, Value.bool false)] ∧
      buildVarMap [(k, "falseish")] = [(k, Value.str "falseish")] ∧
      buildVarMap [(k, "0")] = [(k, Value.str "0")] ∧
      buildVarMap [(k, "true")] = [(k, Value.str "true")] ∧
      buildVarMap [(k, "")] = [(k, Value.str "")]) := by
  rw [buildVarMap_eq_map envMap hnd]
  refine ⟨?_, ?_, ?_, ?_⟩
  · simp [GoMap.keys, Function.comp_def]
  · intro k h
    rw [GoMap.get_map (fun v => if toLower v = "false" then Value.bool false else Value.str v),
      h]
    rfl
  · intro k v h
    rw [GoMap.get_map (fun v => if toLower v = "false" then Value.bool false else Value.str v),
      h]
    constructor
    · intro hf; simp [hf]
    · intro hf; simp [hf]
  · intro k
    have e1 : toLower "False" = "false" := by decide
    have e2 : toLower "FALSE" = "false" := by decide
    have e3 : toLower "false" = "false" := by decide
    have e4 : toLower "falseish" ≠ "false" := by decide
    have e5 : toLower "0" ≠ "false" := by decide
    have e6 : toLower "true" ≠ "false" := by decide
    have e7 : toLower "" ≠ "false" := by decide
    simp [buildVarMap, GoMap.set, e1, e2, e3, e4, e5, e6, e7]

/-- Witness for C5: a map with the seven values named by the claim. -/
theorem buildVarMap_coerces_false_witness :
    (GoMap.keys [("A", "False"), ("B", "FALSE"), ("C", "false"), ("D", "falseish"),
        ("E", "0"), ("F", "true"), ("G", "")]).Nodup ∧
      (buildVarMap [("A", "False"), ("B", "FALSE"), ("C", "false"), ("D", "falseish"),
        ("E", "0"), ("F", "true"), ("G", "")]).keys = ["A", "B", "C", "D", "E", "F", "G"] :=
  ⟨by decide,
   (buildVarMap_coerces_false [("A", "False"), ("B", "FALSE"), ("C", "false"),
      ("D", "falseish"), ("E", "0"), ("F", "true"), ("G", "")] (by decide)).1⟩

/-- C8. For an existing regular template file of size `size` and a cap `maxBytes`,
`openTemplate` ends with the exceeds-maximum fatal error exactly when `maxBytes` is
nonzero and `size > maxBytes`, and then the file has been stat'ed but not read; when the
cap is zero or the size is at most the cap (a size equal to the cap included), the file is
admitted: it is read, and its content is returned when the read succeeds. -/
theorem openTemplate_size_cap (lib : Lib) (env : List String) (inPath source : String)
    (maxBytes : Int) (w : World) (sandboxDir : String) (size : Int)
    (hsb : lookupEnv env "MESOS_SANDBOX" = some sandboxDir)
    (hstat : w.fs.stat (lib.join sandboxDir inPath) = StatResult.ok true size) :
    ((openTemplate lib env inPath source maxBytes w).exit? =
        some (Exit.fatal
          (Fatal.exceedsMaximum (lib.join sandboxDir inPath) source size maxBytes)) ↔
      (maxBytes ≠ 0 ∧ size > maxBytes)) ∧
    ((maxBytes ≠ 0 ∧ size > maxBytes) →
      (openTemplate lib env inPath source maxBytes w).trace =
        w.trace ++ [FileOp.stat (lib.join sandboxDir inPath)]) ∧
    ((maxBytes = 0 ∨ size ≤ maxBytes) →
      (openTemplate lib env inPath source maxBytes w).trace =
        w.trace ++ [FileOp.stat (lib.join sandboxDir inPath),
          FileOp.read (lib.join sandboxDir inPath)] ∧
      ∀ data, w.fs.readFile (lib.join sandboxDir inPath) = .ok data →
        openTemplate lib env inPath source maxBytes w =
          TRun.ret data ⟨w.fs, w.trace ++ [FileOp.stat (lib.join sandboxDir inPath),
            FileOp.read (lib.join sandboxDir inPath)]⟩) := by
  by_cases hbig : maxBytes ≠ 0 ∧ size > maxBytes
  · have hcond : (maxBytes != 0 && decide (size > maxBytes)) = true := by
      simp [hbig.1, hbig.2]
    have hrun : openTemplate lib env inPath source maxBytes w =
        TRun.exit (Exit.fatal
          (Fatal.exceedsMaximum (lib.join sandboxDir inPath) source size maxBytes))
          (w.record (FileOp.stat (lib.join sandboxDir inPath))) := by
      simp only [openTemplate, hsb, hstat]
      simp [hcond]
    refine ⟨?_, ?_, ?_⟩
    · rw [hrun]; simp [TRun.exit?, hbig.1, hbig.2]
    · intro _; rw [hrun]; simp [TRun.trace, World.record]
    · intro hsmall
      exfalso
      rcases hsmall with h | h
      · exact hbig.1 h
      · exact absurd hbig.2 (not_lt.mpr h)
  · have hcond : (maxBytes != 0 && decide (size > maxBytes)) = false := by
      by_cases h0 : maxBytes = 0
      · simp [h0]
      · have : ¬ size > maxBytes := fun h => hbig ⟨h0, h⟩
        simp [this]
    have hrun : openTemplate lib env inPath source maxBytes w =
        match w.fs.readFile (lib.join sandboxDir inPath) with
        | .error e =>
          TRun.exit (Exit.fatal (Fatal.readFailed source (lib.join sandboxDir inPath) e))
            ⟨w.fs, w.trace ++ [FileOp.stat (lib.join sandboxDir inPath),
              FileOp.read (lib.join sandboxDir inPath)]⟩
        | .ok data =>
          TRun.ret data ⟨w.fs, w.trace ++ [FileOp.stat (lib.join sandboxDir inPath),
            FileOp.read (lib.join sandboxDir inPath)]⟩ := by
      simp only [openTemplate, hsb, hstat]
      simp [hcond, World.record]
    refine ⟨?_, ?_, ?_⟩
    · rw [hrun]
      constructor
      · intro h
        exfalso
        cases hr : w.fs.readFile (lib.join sandboxDir inPath) with
        | error e => rw [hr] at h; simp [TRun.exit?] at h
        | ok data => rw [hr] at h; simp [TRun.exit?] at h
      · intro h; exact absurd h hbig
    · intro h; exact absurd h hbig
    · intro _
      rw [hrun]
      constructor
      · cases hr : w.fs.readFile (lib.join sandboxDir inPath) with
        | error e => simp [TRun.trace]
        | ok data => simp [TRun.trace]
      · intro data hr
        rw [hr]

/-- Witness for C8: a four-byte file against a cap of three bytes is rejected unread. -/
theorem openTemplate_size_cap_witness :
    lookupEnv ["MESOS_SANDBOX=/sb"] "MESOS_SANDBOX" = some "/sb" ∧
      FS.stat [("/sb/a.tmpl", regularFile "abcd")] (plainLib.join "/sb" "a.tmpl") =
        StatResult.ok true 4 ∧
      (openTemplate plainLib ["MESOS_SANDBOX=/sb"] "a.tmpl" "envvar" 3
          ⟨[("/sb/a.tmpl", regularFile "abcd")], []⟩).trace =
        [] ++ [FileOp.stat (plainLib.join "/sb" "a.tmpl")] :=
  ⟨by decide, by decide,
   (openTemplate_size_cap plainLib ["MESOS_SANDBOX=/sb"] "a.tmpl" "envvar" 3
      ⟨[("/sb/a.tmpl", regularFile "abcd")], []⟩ "/sb" 4 (by decide) (by decide)).2.1
      ⟨by decide, by decide⟩⟩

theorem cutAt_none (sep : Char) (l : List Char) (h : sep ∉ l) : cutAt sep l = none := by
  induction l with
  | nil => rfl
  | cons c cs ih =>
    simp only [List.mem_cons, not_or] at h
    have hc : ¬ c = sep := fun e => h.1 e.symm
    simp [cutAt, hc, ih h.2]

theorem cutAt_first (sep : Char) (a b : List Char) (h : sep ∉ a) :
    cutAt sep (a ++ sep :: b) = some (a, b) := by
  induction a with
  | nil => simp [cutAt]
  | cons c cs ih =>
    simp only [List.mem_cons, not_or] at h
    have hc : ¬ c = sep := fun e => h.1 e.symm
    simp [cutAt, hc, ih h.2]

theorem cutAt_some_of_mem (sep : Char) (l : List Char) (h : sep ∈ l) :
    ∃ a b, cutAt sep l = some (a, b) := by
  induction l with
  | nil => simp at h
  | cons c cs ih =>
    by_cases hc : c = sep
    · exact ⟨[], cs, by simp [cutAt, hc]⟩
    · have hmem : sep ∈ cs := by
        rcases List.mem_cons.mp h with e | e
        · exact absurd e.symm hc
        · exact e
      obtain ⟨a, b, hab⟩ := ih hmem
      exact ⟨c :: a, b, by simp [cutAt, hc, hab]⟩

theorem renderEntries_skip (lib : Lib) (env : List String) (maxBytes : Int)
    (envMap : GoMap String) (entry : String) (entries : List String) (w : World)
    (h : hasPrefix entry configTemplatePrefix = false) :
    renderEntries lib env maxBytes envMap (entry :: entries) w =
      renderEntries lib env maxBytes envMap entries w := by
  simp [renderEntries, h]

theorem renderEntries_malformed (lib : Lib) (env : List String) (maxBytes : Int)
    (envMap : GoMap String) (entry : String) (entries : List String) (w : World)
    (key val : String) (hpre : hasPrefix entry configTemplatePrefix = true)
    (hentry : entry.data = key.data ++ '=' :: val.data) (hkey : '=' ∉ key.data)
    (hval : ',' ∉ val.data) :
    renderEntries lib env maxBytes envMap (entry :: entries) w =
      TRun.exit (Exit.fatal (Fatal.invalidTemplateValue key val)) w := by
  have h1 : cutAt '=' entry.data = some (key.data, val.data) := by
    rw [hentry]; exact cutAt_first '=' key.data val.data hkey
  simp [renderEntries, hpre, splitN2, h1, cutAt_none ',' val.data hval]

theorem renderEntries_wellformed (lib : Lib) (env : List String) (maxBytes : Int)
    (envMap : GoMap String) (entry : String) (entries : List String) (w : World)
    (key val : String) (src dest : List Char)
    (hpre : hasPrefix entry configTemplatePrefix = true)
    (hentry : entry.data = key.data ++ '=' :: val.data) (hkey : '=' ∉ key.data)
    (hval : val.data = src ++ ',' :: dest) (hsrc : ',' ∉ src) :
    renderEntries lib env maxBytes envMap (entry :: entries) w =
      match openTemplate lib env (String.mk src) ("envvar '" ++ key ++ "'") maxBytes w with
      | TRun.exit e w1 => TRun.exit e w1
      | TRun.ret data w1 =>
        match renderTemplate lib data (String.mk dest) envMap ("envvar '" ++ key ++ "'") w1 with
        | TRun.exit e w2 => TRun.exit e w2
        | TRun.ret _ w2 => renderEntries lib env maxBytes envMap entries w2 := by
  have h1 : cutAt '=' entry.data = some (key.data, val.data) := by
    rw [hentry]; exact cutAt_first '=' key.data val.data hkey
  have h2 : cutAt ',' val.data = some (src, dest) := by
    rw [hval]; exact cutAt_first ',' src dest hsrc
  simp [renderEntries, hpre, splitN2, h1, h2]

theorem renderEntries_append (lib : Lib) (env : List String) (maxBytes : Int)
    (envMap : GoMap String) (pre post : List String) (w : World) :
    renderEntries lib env maxBytes envMap (pre ++ post) w =
      match renderEntries lib env maxBytes envMap pre w with
      | TRun.ret _ w1 => renderEntries lib env maxBytes envMap post w1
      | TRun.exit e w1 => TRun.exit e w1 := by
  induction pre generalizing w with
  | nil => simp [renderEntries]
  | cons entry pre ih =>
    simp only [List.cons_append, renderEntries]
    split
    · exact ih w
    · split
      · split
        · rfl
        · split
          · split
            · rfl
            · split
              · rfl
              · exact ih _
          · rfl
      · rfl

theorem renderEntries_no_declaration (lib : Lib) (env : List String) (maxBytes : Int)
    (envMap : GoMap String) (entries : List String) (w : World)
    (h : ∀ e ∈ entries, hasPrefix e configTemplatePrefix = false) :
    renderEntries lib env maxBytes envMap entries w = TRun.ret () w := by
  induction entries with
  | nil => rfl
  | cons entry entries ih =>
    rw [renderEntries_skip _ _ _ _ _ _ _ (h entry (List.mem_cons_self _ _))]
    exact ih (fun e he => h e (List.mem_cons_of_mem _ he))

theorem buildEnvMap_ok (env : List String) (envMap : GoMap String)
    (h : ∀ e ∈ env, '=' ∈ e.data) : ∃ m, buildEnvMap env envMap = .ok m := by
  induction env generalizing envMap with
  | nil => exact ⟨envMap, rfl⟩
  | cons entry env ih =>
    obtain ⟨a, b, hab⟩ := cutAt_some_of_mem '=' entry.data (h entry (List.mem_cons_self _ _))
    obtain ⟨m, hm⟩ := ih (envMap.set (String.mk a) (String.mk b))
      (fun e he => h e (List.mem_cons_of_mem _ he))
    refine ⟨m, ?_⟩
    simp [buildEnvMap, splitN2, hab, hm]

/-- C6, as the code has it. For an environment entry `key=val` whose key starts with
`CONFIG_TEMPLATE_`, `renderTemplates` rejects the value as a fatal configuration error
when it contains no comma; a value containing a comma is accepted and cut at its first
comma: the text before it is the source and everything after it, further commas
included, is the destination, and the entry goes on to `openTemplate`. -/
theorem renderEntries_value_check (lib : Lib) (env : List String) (maxBytes : Int)
    (envMap : GoMap String) (entry : String) (entries : List String) (w : World)
    (key val : String) (hpre : hasPrefix entry configTemplatePrefix = true)
    (hentry : entry.data = key.data ++ '=' :: val.data) (hkey : '=' ∉ key.data) :
    (',' ∉ val.data →
      renderEntries lib env maxBytes envMap (entry :: entries) w =
        TRun.exit (Exit.fatal (Fatal.invalidTemplateValue key val)) w) ∧
    (∀ src dest : List Char, val.data = src ++ ',' :: dest → ',' ∉ src →
      renderEntries lib env maxBytes envMap (entry :: entries) w =
        match openTemplate lib env (String.mk src) ("envvar '" ++ key ++ "'") maxBytes w with
        | TRun.exit e w1 => TRun.exit e w1
        | TRun.ret data w1 =>
          match renderTemplate lib data (String.mk dest) envMap ("envvar '" ++ key ++ "'") w1
          with
          | TRun.exit e w2 => TRun.exit e w2
          | TRun.ret _ w2 => renderEntries lib env maxBytes envMap entries w2) :=
  ⟨fun hval => renderEntries_malformed lib env maxBytes envMap entry entries w key val hpre
      hentry hkey hval,
   fun src dest hval hsrc => renderEntries_wellformed lib env maxBytes envMap entry entries w
      key val src dest hpre hentry hkey hval hsrc⟩

/-- Witness for C6: the value `a.tmpl` has no comma and is rejected. -/
theorem renderEntries_value_check_witness :
    hasPrefix "CONFIG_TEMPLATE_X=a.tmpl" configTemplatePrefix = true ∧
      (renderEntries plainLib [] 0 [] ["CONFIG_TEMPLATE_X=a.tmpl"] ⟨[], []⟩).exit? =
        some (Exit.fatal (Fatal.invalidTemplateValue "CONFIG_TEMPLATE_X" "a.tmpl")) :=
  ⟨by decide,
   congrArg TRun.exit?
     ((renderEntries_value_check plainLib [] 0 [] "CONFIG_TEMPLATE_X=a.tmpl" [] ⟨[], []⟩
        "CONFIG_TEMPLATE_X" "a.tmpl" (by decide) (by decide) (by decide)).1 (by decide))⟩

/-- Counterexample to C6: the value `a.tmpl,b,c` has two commas and three comma-separated
parts, and is accepted: the template is located, read and written to `b,c`. -/
theorem value_with_two_commas_accepted :
    (renderTemplates plainLib 0 ["MESOS_SANDBOX=/sb", "CONFIG_TEMPLATE_X=a.tmpl,b,c"]
        ⟨[("/sb/a.tmpl", regularFile "x")], []⟩).exit? = none ∧
    (renderTemplates plainLib 0 ["MESOS_SANDBOX=/sb", "CONFIG_TEMPLATE_X=a.tmpl,b,c"]
        ⟨[("/sb/a.tmpl", regularFile "x")], []⟩).trace =
      [FileOp.stat "/sb/a.tmpl", FileOp.read "/sb/a.tmpl", FileOp.write "b,c" "x"] := by
  constructor <;> decide

/-- C7, as the code has it. When a `CONFIG_TEMPLATE_` declaration of the environment has a
value without a comma, `renderTemplates` never returns normally and performs no file
operation for that declaration or for an entry enumerated after it: the file operations
of the run are exactly those of processing the entries enumerated before it.  If that
processing ends the process (an earlier declaration fails), the run ends there with that
exit; otherwise the run ends at the malformed declaration, in the state the earlier
entries left, with the invalid-value fatal error.  When no declaration is enumerated
before the malformed one, no file operation is performed at all. -/
theorem renderTemplates_malformed_stops (lib : Lib) (maxBytes : Int)
    (pre post : List String) (bad key val : String) (w : World)
    (hwf : ∀ e ∈ pre ++ bad :: post, '=' ∈ e.data)
    (hpre : hasPrefix bad configTemplatePrefix = true)
    (hbad : bad.data = key.data ++ '=' :: val.data) (hkey : '=' ∉ key.data)
    (hval : ',' ∉ val.data) :
    ∃ envMap, buildEnvMap (pre ++ bad :: post) [] = .ok envMap ∧
      renderTemplates lib maxBytes (pre ++ bad :: post) w =
        (match renderEntries lib (pre ++ bad :: post) maxBytes envMap pre w with
          | TRun.ret _ w1 => TRun.exit (Exit.fatal (Fatal.invalidTemplateValue key val)) w1
          | TRun.exit e w1 => TRun.exit e w1) ∧
      (renderTemplates lib maxBytes (pre ++ bad :: post) w).exit? ≠ none ∧
      (renderTemplates lib maxBytes (pre ++ bad :: post) w).trace =
        (renderEntries lib (pre ++ bad :: post) maxBytes envMap pre w).trace ∧
      ((renderEntries lib (pre ++ bad :: post) maxBytes envMap pre w).exit? = none →
        (renderTemplates lib maxBytes (pre ++ bad :: post) w).exit? =
          some (Exit.fatal (Fatal.invalidTemplateValue key val))) ∧
      (∀ e, (renderEntries lib (pre ++ bad :: post) maxBytes envMap pre w).exit? = some e →
        (renderTemplates lib maxBytes (pre ++ bad :: post) w).exit? = some e) ∧
      ((∀ e ∈ pre, hasPrefix e configTemplatePrefix = false) →
        renderTemplates lib maxBytes (pre ++ bad :: post) w =
          TRun.exit (Exit.fatal (Fatal.invalidTemplateValue key val)) w) := by
  obtain ⟨envMap, hmap⟩ := buildEnvMap_ok (pre ++ bad :: post) [] hwf
  have hrun : renderTemplates lib maxBytes (pre ++ bad :: post) w =
      (match renderEntries lib (pre ++ bad :: post) maxBytes envMap pre w with
        | TRun.ret _ w1 => TRun.exit (Exit.fatal (Fatal.invalidTemplateValue key val)) w1
        | TRun.exit e w1 => TRun.exit e w1) := by
    simp only [renderTemplates, hmap]
    rw [renderEntries_append]
    cases hp : renderEntries lib (pre ++ bad :: post) maxBytes envMap pre w with
    | ret u w1 =>
      exact renderEntries_malformed lib _ maxBytes envMap bad post w1 key val hpre hbad hkey hval
    | exit e w1 => rfl
  refine ⟨envMap, hmap, hrun, ?_, ?_, ?_, ?_, ?_⟩
  · rw [hrun]
    cases renderEntries lib (pre ++ bad :: post) maxBytes envMap pre w <;> simp [TRun.exit?]
  · rw [hrun]
    cases renderEntries lib (pre ++ bad :: post) maxBytes envMap pre w <;> simp [TRun.trace]
  · rw [hrun]
    cases renderEntries lib (pre ++ bad :: post) maxBytes envMap pre w <;> simp [TRun.exit?]
  · rw [hrun]
    cases renderEntries lib (pre ++ bad :: post) maxBytes envMap pre w <;> simp [TRun.exit?]
  · intro hnone
    rw [hrun, renderEntries_no_declaration lib _ maxBytes envMap pre w hnone]

/-- Witness for C7: the declaration `a.tmpl` alone stops the run with no file operation. -/
theorem renderTemplates_malformed_stops_witness :
    (renderTemplates plainLib 0 (["MESOS_SANDBOX=/sb"] ++ "CONFIG_TEMPLATE_X=a.tmpl" :: [])
        ⟨[("/sb/a.tmpl", regularFile "x")], []⟩).trace = [] :=
  (renderTemplates_malformed_stops plainLib 0 ["MESOS_SANDBOX=/sb"] []
      "CONFIG_TEMPLATE_X=a.tmpl" "CONFIG_TEMPLATE_X" "a.tmpl"
      ⟨[("/sb/a.tmpl", regularFile "x")], []⟩
      (by decide) (by decide) (by decide) (by decide) (by decide)).elim
    (fun _ h => congrArg TRun.trace (h.2.2.2.2.2.2 (by decide)))

/-- Counterexample to C7: a well-formed declaration enumerated before the malformed one is
located, read and written before the run ends with the invalid-value fatal error. -/
theorem malformed_after_wellformed_does_file_operations :
    (renderTemplates plainLib 0
        ["MESOS_SANDBOX=/sb", "CONFIG_TEMPLATE_A=a.tmpl,a.out", "CONFIG_TEMPLATE_B=b.tmpl"]
        ⟨[("/sb/a.tmpl", regularFile "x"), ("/sb/b.tmpl", regularFile "y")], []⟩).exit? =
      some (Exit.fatal (Fatal.invalidTemplateValue "CONFIG_TEMPLATE_B" "b.tmpl")) ∧
    (renderTemplates plainLib 0
        ["MESOS_SANDBOX=/sb", "CONFIG_TEMPLATE_A=a.tmpl,a.out", "CONFIG_TEMPLATE_B=b.tmpl"]
        ⟨[("/sb/a.tmpl", regularFile "x"), ("/sb/b.tmpl", regularFile "y")], []⟩).trace =
      [FileOp.stat "/sb/a.tmpl", FileOp.read "/sb/a.tmpl", FileOp.write "a.out" "x"] := by
  constructor <;> decide

theorem openTemplate_trace (lib : Lib) (env : List String) (inPath source : String)
    (maxBytes : Int) (w : World) :
    match openTemplate lib env inPath source maxBytes w with
    | TRun.ret _ w1 =>
      located w1.trace =
        located w.trace ++ [lib.join ((lookupEnv env "MESOS_SANDBOX").getD "") inPath] ∧
      written w1.trace = written w.trace
    | TRun.exit _ w1 =>
      written w1.trace = written w.trace ∧
      (located w1.trace = located w.trace ∨
        located w1.trace =
          located w.trace ++ [lib.join ((lookupEnv env "MESOS_SANDBOX").getD "") inPath]) := by
  unfold openTemplate
  cases hsb : lookupEnv env "MESOS_SANDBOX" with
  | none => simp
  | some sb =>
    simp only [Option.getD_some]
    cases hst : w.fs.stat (lib.join sb inPath) with
    | notExist => simp [World.record, located, written, List.filterMap_append]
    | otherError e => simp [World.record, located, written, List.filterMap_append]
    | ok regular size =>
      simp only []
      by_cases hreg : (!regular) = true
      · simp [hreg, World.record, located, written, List.filterMap_append]
      · by_cases hbig : (maxBytes != 0 && decide (size > maxBytes)) = true
        · simp only [hreg, hbig, if_true]
          simp [World.record, located, written, List.filterMap_append]
        · simp only [hreg, hbig]
          cases hrd : w.fs.readFile (lib.join sb inPath) with
          | error e => simp [World.record, located, written, List.filterMap_append]
          | ok data => simp [World.record, located, written, List.filterMap_append]

theorem renderTemplate_trace (lib : Lib) (origContent outPath : String)
    (envMap : GoMap String) (source : String) (w : World) :
    match renderTemplate lib origContent outPath envMap source w with
    | TRun.ret _ w1 =>
      located w1.trace = located w.trace ∧ written w1.trace = written w.trace ++ [outPath]
    | TRun.exit _ w1 =>
      located w1.trace = located w.trace ∧
      (written w1.trace = written w.trace ∨
        written w1.trace = written w.trace ++ [outPath]) := by
  unfold renderTemplate
  simp only []
  cases hr : lib.render origContent (buildVarMap envMap) with
  | error e => simp
  | ok newContent =>
    simp only []
    cases hw : w.fs.writeFile outPath newContent with
    | error e => simp [located, written, List.filterMap_append]
    | ok fs1 => simp [located, written, List.filterMap_append]

theorem renderEntries_order (lib : Lib) (env : List String) (maxBytes : Int)
    (envMap : GoMap String) (entries : List String) (w : World) :
    ∃ n k, k ≤ n ∧ n ≤ (declarations entries).length ∧
      located (renderEntries lib env maxBytes envMap entries w).trace =
        located w.trace ++ ((declarations entries).take n).map
          (fun d => lib.join ((lookupEnv env "MESOS_SANDBOX").getD "") d.1) ∧
      written (renderEntries lib env maxBytes envMap entries w).trace =
        written w.trace ++ ((declarations entries).take k).map Prod.snd ∧
      ((renderEntries lib env maxBytes envMap entries w).exit? = none →
        n = (declarations entries).length ∧ k = (declarations entries).length) := by
  induction entries generalizing w with
  | nil => exact ⟨0, 0, le_refl _, by simp [declarations], by simp [renderEntries, TRun.trace],
      by simp [renderEntries, TRun.trace], by simp [declarations]⟩
  | cons entry entries ih =>
    by_cases hpre : hasPrefix entry configTemplatePrefix = true
    · cases h1 : cutAt '=' entry.data with
      | none =>
        have hrun : renderEntries lib env maxBytes envMap (entry :: entries) w =
            TRun.exit (Exit.panic (Panic.indexOutOfRange 1 1)) w := by
          simp [renderEntries, hpre, splitN2, h1]
        rw [hrun]
        exact ⟨0, 0, le_refl _, Nat.zero_le _, by simp [TRun.trace], by simp [TRun.trace],
          by simp [TRun.exit?]⟩
      | some kv =>
        obtain ⟨kd, vd⟩ := kv
        cases h2 : cutAt ',' vd with
        | none =>
          have hrun : renderEntries lib env maxBytes envMap (entry :: entries) w =
              TRun.exit (Exit.fatal (Fatal.invalidTemplateValue (String.mk kd) (String.mk vd)))
                w := by
            simp [renderEntries, hpre, splitN2, h1, h2]
          rw [hrun]
          exact ⟨0, 0, le_refl _, Nat.zero_le _, by simp [TRun.trace], by simp [TRun.trace],
            by simp [TRun.exit?]⟩
        | some sd =>
          obtain ⟨src, dest⟩ := sd
          have hdecl : declarations (entry :: entries) =
              (String.mk src, String.mk dest) :: declarations entries := by
            simp [declarations, List.filterMap_cons, hpre, h1, h2]
          have hrun : renderEntries lib env maxBytes envMap (entry :: entries) w =
              match openTemplate lib env (String.mk src) ("envvar '" ++ String.mk kd ++ "'")
                maxBytes w with
              | TRun.exit e w1 => TRun.exit e w1
              | TRun.ret data w1 =>
                match renderTemplate lib data (String.mk dest) envMap
                  ("envvar '" ++ String.mk kd ++ "'") w1 with
                | TRun.exit e w2 => TRun.exit e w2
                | TRun.ret _ w2 => renderEntries lib env maxBytes envMap entries w2 := by
            simp [renderEntries, hpre, splitN2, h1, h2]
          rw [hrun, hdecl]
          have hop := openTemplate_trace lib env (String.mk src)
            ("envvar '" ++ String.mk kd ++ "'") maxBytes w
          cases hopen : openTemplate lib env (String.mk src)
              ("envvar '" ++ String.mk kd ++ "'") maxBytes w with
          | exit e w1 =>
            rw [hopen] at hop
            simp only [] at hop
            rcases hop.2 with hl | hl
            · exact ⟨0, 0, le_refl _, Nat.zero_le _, by simp [TRun.trace, hl],
                by simp [TRun.trace, hop.1], by simp [TRun.exit?]⟩
            · exact ⟨1, 0, Nat.zero_le _, by simp, by simp [TRun.trace, hl],
                by simp [TRun.trace, hop.1], by simp [TRun.exit?]⟩
          | ret data w1 =>
            rw [hopen] at hop
            simp only [] at hop
            have hrt := renderTemplate_trace lib data (String.mk dest) envMap
              ("envvar '" ++ String.mk kd ++ "'") w1
            simp only []
            cases hrender : renderTemplate lib data (String.mk dest) envMap
                ("envvar '" ++ String.mk kd ++ "'") w1 with
            | exit e w2 =>
              rw [hrender] at hrt
              simp only [] at hrt
              rcases hrt.2 with hwr | hwr
              · exact ⟨1, 0, Nat.zero_le _, by simp, by simp [TRun.trace, hrt.1, hop.1],
                  by simp [TRun.trace, hwr, hop.2], by simp [TRun.exit?]⟩
              · exact ⟨1, 1, le_refl _, by simp, by simp [TRun.trace, hrt.1, hop.1],
                  by simp [TRun.trace, hwr, hop.2], by simp [TRun.exit?]⟩
            | ret u w2 =>
              rw [hrender] at hrt
              simp only [] at hrt
              obtain ⟨n, k, hkn, hn, hloc, hwri, hfull⟩ := ih w2
              refine ⟨n + 1, k + 1, by omega, by simp; omega, ?_, ?_, ?_⟩
              · simp only []
                rw [hloc, hrt.1, hop.1]
                simp
              · simp only []
                rw [hwri, hrt.2, hop.2]
                simp
              · intro hex
                have := hfull hex
                simp [this.1, this.2]
    · have hpre : hasPrefix entry configTemplatePrefix = false := by simpa using hpre
      have hdecl : declarations (entry :: entries) = declarations entries := by
        simp [declarations, List.filterMap_cons, hpre]
      rw [renderEntries_skip _ _ _ _ _ _ _ hpre, hdecl]
      exact ih w

/-- C9, as the code has it. `renderTemplates` processes the `CONFIG_TEMPLATE_` declarations
in the order in which the environment enumerates them, without sorting: in every run the
template sources located and the destinations written are, in order, those of an initial
part of the declarations in enumeration order, and of all of them when the run returns. -/
theorem renderTemplates_enumeration_order (lib : Lib) (maxBytes : Int) (env : List String)
    (w : World) :
    ∃ n k, k ≤ n ∧ n ≤ (declarations env).length ∧
      located (renderTemplates lib maxBytes env w).trace =
        located w.trace ++ ((declarations env).take n).map
          (fun d => lib.join ((lookupEnv env "MESOS_SANDBOX").getD "") d.1) ∧
      written (renderTemplates lib maxBytes env w).trace =
        written w.trace ++ ((declarations env).take k).map Prod.snd ∧
      ((renderTemplates lib maxBytes env w).exit? = none →
        n = (declarations env).length ∧ k = (declarations env).length) := by
  unfold renderTemplates
  cases hmap : buildEnvMap env [] with
  | error p =>
    exact ⟨0, 0, le_refl _, Nat.zero_le _, by simp [TRun.trace], by simp [TRun.trace],
      by simp [TRun.exit?]⟩
  | ok envMap => exact renderEntries_order lib env maxBytes envMap env w

/-- Counterexample to C9: with `CONFIG_TEMPLATE_B` enumerated before `CONFIG_TEMPLATE_A`
the declaration of `B` is rendered first, which is not the sorted order of the keys, and
the environment with the same two entries the other way round renders `A` first. -/
theorem declarations_rendered_unsorted :
    (renderTemplates plainLib 0
        ["MESOS_SANDBOX=/sb", "CONFIG_TEMPLATE_B=b.tmpl,b.out", "CONFIG_TEMPLATE_A=a.tmpl,a.out"]
        ⟨[("/sb/a.tmpl", regularFile "x"), ("/sb/b.tmpl", regularFile "y")], []⟩).trace =
      [FileOp.stat "/sb/b.tmpl", FileOp.read "/sb/b.tmpl", FileOp.write "b.out" "y",
        FileOp.stat "/sb/a.tmpl", FileOp.read "/sb/a.tmpl", FileOp.write "a.out" "x"] ∧
    (renderTemplates plainLib 0
        ["MESOS_SANDBOX=/sb", "CONFIG_TEMPLATE_A=a.tmpl,a.out", "CONFIG_TEMPLATE_B=b.tmpl,b.out"]
        ⟨[("/sb/a.tmpl", regularFile "x"), ("/sb/b.tmpl", regularFile "y")], []⟩).trace =
      [FileOp.stat "/sb/a.tmpl", FileOp.read "/sb/a.tmpl", FileOp.write "a.out" "x",
        FileOp.stat "/sb/b.tmpl", FileOp.read "/sb/b.tmpl", FileOp.write "b.out" "y"] := by
  constructor <;> decide

/-! ## Theorems: environment redaction -/

theorem matchesAt_append_right (p q s : List Char) (h : matchesAt (p ++ q) s = true) :
    matchesAt q (s.drop p.length) = true := by
  induction p generalizing s with
  | nil => simpa using h
  | cons a p ih =>
    cases s with
    | nil =>
      simp [matchesAt] at h
    | cons c cs =>
      simp only [List.cons_append, matchesAt, Bool.and_eq_true] at h
      simpa using ih cs h.2

theorem matchesIn_of_drop (q s : List Char) (n : Nat)
    (h : matchesAt q (s.drop n) = true) : matchesIn q s = true := by
  induction s generalizing n with
  | nil => simpa [matchesIn] using h
  | cons c cs ih =>
    cases n with
    | zero =>
      simp only [List.drop_zero] at h
      simp [matchesIn, h]
    | succ n =>
      simp only [List.drop_succ_cons] at h
      simp [matchesIn, ih n h]

theorem matchesIn_drop_exists (p s : List Char) (h : matchesIn p s = true) :
    ∃ n, matchesAt p (s.drop n) = true := by
  induction s with
  | nil => exact ⟨0, by simpa [matchesIn] using h⟩
  | cons c cs ih =>
    simp only [matchesIn, Bool.or_eq_true] at h
    rcases h with h | h
    · exact ⟨0, by simpa using h⟩
    · obtain ⟨n, hn⟩ := ih h
      exact ⟨n + 1, by simpa using hn⟩

theorem matchesAt_fold_congr (p q s : List Char) (h : p.map foldRune = q.map foldRune) :
    matchesAt p s = matchesAt q s := by
  induction p generalizing q s with
  | nil =>
    cases q with
    | nil => rfl
    | cons b q => simp at h
  | cons a p ih =>
    cases q with
    | nil => simp at h
    | cons b q =>
      simp only [List.map_cons, List.cons.injEq] at h
      cases s with
      | nil => rfl
      | cons c cs => simp only [matchesAt, h.1, ih q cs h.2]

theorem credential_alternative_subsumed (s : List Char)
    (h : matchesIn "DCOS_SERVICE_ACCOUNT_CREDENTIAL".data s = true) :
    matchesIn "credential".data s = true := by
  obtain ⟨n, hn⟩ := matchesIn_drop_exists _ _ h
  have hsplit : "DCOS_SERVICE_ACCOUNT_CREDENTIAL".data =
      "DCOS_SERVICE_ACCOUNT_".data ++ "CREDENTIAL".data := by decide
  rw [hsplit] at hn
  have h2 := matchesAt_append_right _ _ _ hn
  rw [matchesAt_fold_congr "CREDENTIAL".data "credential".data _ (by decide)] at h2
  rw [List.drop_drop] at h2
  exact matchesIn_of_drop _ _ _ h2

theorem blackListed_eq_words (key : String) :
    blackListedEnvironKeys key =
      sensitiveWords.any (fun word => matchesIn word.data key.data) := by
  simp only [blackListedEnvironKeys, blackListedAlternatives, sensitiveWords,
    List.any_cons, List.any_nil, Bool.or_false]
  cases hd : matchesIn "DCOS_SERVICE_ACCOUNT_CREDENTIAL".data key.data with
  | false => simp
  | true => simp [credential_alternative_subsumed key.data hd]

theorem matchesAt_iff (pat s : List Char) :
    matchesAt pat s = true ↔
      ∃ mid post, s = mid ++ post ∧
        List.Forall₂ (fun p c => (foldRune p == foldRune c) = true) pat mid := by
  induction pat generalizing s with
  | nil =>
    constructor
    · intro _; exact ⟨[], s, rfl, List.Forall₂.nil⟩
    · intro _; cases s <;> rfl
  | cons p ps ih =>
    cases s with
    | nil =>
      constructor
      · intro h; simp [matchesAt] at h
      · rintro ⟨mid, post, hs, hall⟩
        cases hall with
        | cons _ _ => simp at hs
    | cons c cs =>
      simp only [matchesAt, Bool.and_eq_true]
      constructor
      · rintro ⟨hpc, hrest⟩
        obtain ⟨mid, post, hs, hall⟩ := (ih cs).mp hrest
        exact ⟨c :: mid, post, by simp [hs], List.Forall₂.cons hpc hall⟩
      · rintro ⟨mid, post, hs, hall⟩
        cases hall with
        | cons hpc hall =>
          simp only [List.cons_append, List.cons.injEq] at hs
          refine ⟨hs.1 ▸ hpc, (ih cs).mpr ⟨_, post, hs.2, hall⟩⟩

theorem matchesIn_iff (pat s : List Char) :
    matchesIn pat s = true ↔
      ∃ pre mid post, s = pre ++ mid ++ post ∧
        List.Forall₂ (fun p c => (foldRune p == foldRune c) = true) pat mid := by
  induction s with
  | nil =>
    simp only [matchesIn]
    rw [matchesAt_iff]
    constructor
    · rintro ⟨mid, post, hs, hall⟩
      exact ⟨[], mid, post, by simpa using hs, hall⟩
    · rintro ⟨pre, mid, post, hs, hall⟩
      have h1 : pre = [] ∧ mid = [] ∧ post = [] := by
        have := congrArg List.length hs
        simp at this
        refine ⟨List.length_eq_zero.mp (by omega), List.length_eq_zero.mp (by omega),
          List.length_eq_zero.mp (by omega)⟩
      exact ⟨mid, post, by simp [h1.2.1, h1.2.2], hall⟩
  | cons c cs ih =>
    simp only [matchesIn, Bool.or_eq_true]
    constructor
    · rintro (h | h)
      · obtain ⟨mid, post, hs, hall⟩ := (matchesAt_iff pat (c :: cs)).mp h
        exact ⟨[], mid, post, by simpa using hs, hall⟩
      · obtain ⟨pre, mid, post, hs, hall⟩ := ih.mp h
        exact ⟨c :: pre, mid, post, by simp [hs], hall⟩
    · rintro ⟨pre, mid, post, hs, hall⟩
      cases pre with
      | nil =>
        left
        exact (matchesAt_iff pat (c :: cs)).mpr ⟨mid, post, by simpa using hs, hall⟩
      | cons q pre =>
        right
        simp only [List.cons_append, List.cons.injEq] at hs
        exact ih.mpr ⟨pre, mid, post, hs.2, hall⟩

theorem foldRune_small (letter : Char) (hw : 97 ≤ letter.toNat ∧ letter.toNat ≤ 122) :
    foldRune letter = letter := by
  unfold foldRune
  have h1 : ¬ (65 ≤ letter.toNat ∧ letter.toNat ≤ 90) := by omega
  have h2 : ¬ letter.toNat = 0x212A := by omega
  have h3 : ¬ letter.toNat = 0x17F := by omega
  simp [h1, h2, h3]

theorem fold_sameLetter (letter c : Char) (hw : 97 ≤ letter.toNat ∧ letter.toNat ≤ 122) :
    (foldRune letter == foldRune c) = true ↔ sameLetter letter c := by
  have hk : (Char.ofNat 0x212A).toNat = 0x212A := by decide
  have hs : (Char.ofNat 0x17F).toNat = 0x17F := by decide
  rw [foldRune_small letter hw, beq_iff_eq]
  unfold foldRune sameLetter Char.toLower
  by_cases hcap : 65 ≤ c.toNat ∧ c.toNat ≤ 90
  · have hcap2 : c.toNat ≥ 65 ∧ c.toNat ≤ 90 := hcap
    simp only [hcap, hcap2, and_self, if_true]
    constructor
    · intro h; exact Or.inl h.symm
    · rintro (h | ⟨_, h⟩ | ⟨_, h⟩)
      · exact h.symm
      · rw [h, hk] at hcap; omega
      · rw [h, hs] at hcap; omega
  · have hcap2 : ¬ (c.toNat ≥ 65 ∧ c.toNat ≤ 90) := hcap
    simp only [hcap, hcap2, if_false]
    by_cases hkel : c.toNat = 0x212A
    · have hc : c = Char.ofNat 0x212A := by rw [← hkel, Char.ofNat_toNat]
      simp only [hkel, if_true]
      constructor
      · intro h; exact Or.inr (Or.inl ⟨h, hc⟩)
      · rintro (h | ⟨h, _⟩ | ⟨_, h⟩)
        · rw [← h, hkel] at hw; omega
        · exact h
        · rw [h, hs] at hkel; omega
    · simp only [hkel, if_false]
      by_cases hlong : c.toNat = 0x17F
      · have hc : c = Char.ofNat 0x17F := by rw [← hlong, Char.ofNat_toNat]
        simp only [hlong, if_true]
        constructor
        · intro h; exact Or.inr (Or.inr ⟨h, hc⟩)
        · rintro (h | ⟨_, h⟩ | ⟨h, _⟩)
          · rw [← h, hlong] at hw; omega
          · rw [h, hk] at hkel; exact absurd rfl hkel
          · exact h
      · simp only [hlong, if_false]
        constructor
        · intro h; exact Or.inl h.symm
        · rintro (h | ⟨_, h⟩ | ⟨_, h⟩)
          · exact h.symm
          · rw [h, hk] at hkel; exact absurd rfl hkel
          · rw [h, hs] at hlong; exact absurd rfl hlong

theorem forall₂_fold_sameLetter (word mid : List Char)
    (hw : ∀ p ∈ word, 97 ≤ p.toNat ∧ p.toNat ≤ 122) :
    List.Forall₂ (fun p c => (foldRune p == foldRune c) = true) word mid ↔
      List.Forall₂ sameLetter word mid := by
  induction word generalizing mid with
  | nil => constructor <;> (intro h; cases h; exact List.Forall₂.nil)
  | cons p ps ih =>
    have hp := hw p (List.mem_cons_self _ _)
    have hps : ∀ q ∈ ps, 97 ≤ q.toNat ∧ q.toNat ≤ 122 :=
      fun q hq => hw q (List.mem_cons_of_mem _ hq)
    constructor
    · intro h
      cases h with
      | cons h1 h2 => exact List.Forall₂.cons ((fold_sameLetter p _ hp).mp h1) ((ih _ hps).mp h2)
    · intro h
      cases h with
      | cons h1 h2 => exact List.Forall₂.cons ((fold_sameLetter p _ hp).mpr h1) ((ih _ hps).mpr h2)

theorem sensitiveWords_small :
    ∀ word ∈ sensitiveWords, ∀ p ∈ word.data, 97 ≤ p.toNat ∧ p.toNat ≤ 122 := by
  decide

theorem blackListed_iff_sensitive (key : String) :
    blackListedEnvironKeys key = true ↔ Sensitive key := by
  rw [blackListed_eq_words, List.any_eq_true]
  constructor
  · rintro ⟨word, hmem, hm⟩
    obtain ⟨pre, mid, post, hs, hall⟩ := (matchesIn_iff _ _).mp hm
    exact ⟨word, hmem, pre, mid, post, hs,
      (forall₂_fold_sameLetter _ _ (sensitiveWords_small word hmem)).mp hall⟩
  · rintro ⟨word, hmem, pre, mid, post, hs, hall⟩
    exact ⟨word, hmem, (matchesIn_iff _ _).mpr ⟨pre, mid, post, hs,
      (forall₂_fold_sameLetter _ _ (sensitiveWords_small word hmem)).mpr hall⟩⟩
theorem cutAt_some_spec (sep : Char) (l a b : List Char) (h : cutAt sep l = some (a, b)) :
    l = a ++ sep :: b ∧ sep ∉ a := by
  induction l generalizing a with
  | nil => simp [cutAt] at h
  | cons c cs ih =>
    by_cases hc : c = sep
    · simp only [cutAt, hc, if_true, Option.some.injEq, Prod.mk.injEq] at h
      rw [← h.1, ← h.2, hc]
      simp
    · simp only [cutAt, hc, if_false] at h
      cases hrec : cutAt sep cs with
      | none => rw [hrec] at h; simp at h
      | some ab =>
        obtain ⟨a1, b1⟩ := ab
        rw [hrec] at h
        simp only [Option.some.injEq, Prod.mk.injEq] at h
        obtain ⟨h1, h2⟩ := ih a1 (h.2 ▸ hrec)
        rw [← h.1]
        refine ⟨by rw [h1]; simp, ?_⟩
        simp only [List.mem_cons, not_or]
        exact ⟨fun e => hc e.symm, h2⟩

theorem cutAt_none_spec (sep : Char) (l : List Char) (h : cutAt sep l = none) : sep ∉ l := by
  intro hmem
  obtain ⟨a, b, hab⟩ := cutAt_some_of_mem sep l hmem
  rw [hab] at h
  exact Option.noConfusion h

theorem splitHead_of_isKeyOf (key entry : String) (h : IsKeyOf key entry) :
    splitHead entry '=' = key := by
  rcases h with ⟨value, hd, hk⟩ | ⟨hno, he⟩
  · simp only [splitHead, hd, cutAt_first '=' key.data value hk]
  · simp only [splitHead, cutAt_none '=' entry.data hno, he]

theorem isKeyOf_splitHead (entry : String) : IsKeyOf (splitHead entry '=') entry := by
  unfold splitHead
  cases hc : cutAt '=' entry.data with
  | none => exact Or.inr ⟨cutAt_none_spec _ _ hc, rfl⟩
  | some ab =>
    obtain ⟨a, b⟩ := ab
    obtain ⟨h1, h2⟩ := cutAt_some_spec _ _ _ _ hc
    exact Or.inl ⟨b, h1, h2⟩

theorem foldl_append_singleton {α β : Type} (f : α → β) (l : List α) (init : List β) :
    l.foldl (fun acc x => acc ++ [f x]) init = init ++ l.map f := by
  induction l generalizing init with
  | nil => simp
  | cons a l ih => simp [ih]

theorem filterEnv_eq_map (env : List String) :
    filterEnv false env =
      env.map (fun keyValue =>
        if blackListedEnvironKeys (splitHead keyValue '=') = true then
          splitHead keyValue '=' ++ "=********"
        else keyValue) := by
  have hcat : ∀ k : String, k ++ "=" ++ hiddenEnvKeyValue = k ++ "=********" := by
    intro k
    rw [String.append_assoc]
    rfl
  have hfun : (fun (filteredEnviron : List String) (keyValue : String) =>
        let key := splitHead keyValue '='
        if blackListedEnvironKeys key = true then
          filteredEnviron ++ [key ++ "=" ++ hiddenEnvKeyValue]
        else filteredEnviron ++ [keyValue]) =
      (fun acc x => acc ++ [(fun keyValue =>
        if blackListedEnvironKeys (splitHead keyValue '=') = true then
          splitHead keyValue '=' ++ "=********"
        else keyValue) x]) := by
    funext acc x
    by_cases h : blackListedEnvironKeys (splitHead x '=') = true <;> simp [h, hcat]
  simp only [filterEnv, Bool.false_eq_true, if_false]
  rw [hfun, foldl_append_singleton]
  simp

theorem forall₂_lower_iff (word mid : List Char) :
    List.Forall₂ (fun letter c => c.toLower = letter) word mid ↔
      mid.map Char.toLower = word := by
  induction word generalizing mid with
  | nil =>
    constructor
    · intro h; cases h; rfl
    · intro h
      have : mid = [] := by simpa using h
      rw [this]; exact List.Forall₂.nil
  | cons p ps ih =>
    cases mid with
    | nil =>
      constructor
      · intro h; cases h
      · intro h; simp at h
    | cons c cs =>
      simp only [List.map_cons, List.cons.injEq, List.forall₂_cons]
      rw [ih cs]

theorem forall₂_sameLetter_ascii (word mid : List Char)
    (hmid : ∀ c ∈ mid, c.toNat < 128) (hall : List.Forall₂ sameLetter word mid) :
    List.Forall₂ (fun letter c => c.toLower = letter) word mid := by
  have hk : (Char.ofNat 0x212A).toNat = 0x212A := by decide
  have hs : (Char.ofNat 0x17F).toNat = 0x17F := by decide
  induction hall with
  | nil => exact List.Forall₂.nil
  | cons h1 _ ih =>
    refine List.Forall₂.cons ?_ (ih (fun c hc => hmid c (List.mem_cons_of_mem _ hc)))
    have hc := hmid _ (List.mem_cons_self _ _)
    rcases h1 with h | ⟨_, h⟩ | ⟨_, h⟩
    · exact h
    · rw [h, hk] at hc; omega
    · rw [h, hs] at hc; omega

/-- C10. With insecure printing disabled `filterEnv` returns one entry per environment
entry, in the same order: an entry whose key (the text before the first `=`) contains,
with case ignored, one of `credential`, `password`, `secret`, `token` is replaced by the
key followed by `=********`, and every other entry is returned unchanged.  So two
environments that differ only in the values of sensitive keys have the same filtered
output, and with insecure printing enabled the environment is returned unchanged.  On a
key of ASCII runes, ignoring case is comparing the lower-cased runs of the key with the
word. -/
theorem filterEnv_redacts (env : List String) :
    List.Forall₂
      (fun entry out => ∀ key, IsKeyOf key entry →
        (Sensitive key → out = key ++ "=********") ∧ (¬ Sensitive key → out = entry))
      env (filterEnv false env) ∧
    (filterEnv false env).length = env.length ∧
    (∀ entry : String, ∃ key, IsKeyOf key entry) ∧
    (∀ env2 : List String,
      List.Forall₂ (fun a b => a = b ∨ ∃ key, IsKeyOf key a ∧ IsKeyOf key b ∧ Sensitive key)
        env env2 →
      filterEnv false env = filterEnv false env2) ∧
    filterEnv true env = env ∧
    (∀ key : String, (∀ c ∈ key.data, c.toNat < 128) →
      (Sensitive key ↔ ∃ word, word ∈ sensitiveWords ∧ ∃ pre mid post,
        key.data = pre ++ mid ++ post ∧ mid.map Char.toLower = word.data)) ∧
    filterEnv false ["PATH=/bin", "DB_PASSWORD=hunter2", "API_TOKEN=abc", "my_Secret=x=y",
        "Aws_Credentials", "HOME=/root"] =
      ["PATH=/bin", "DB_PASSWORD=********", "API_TOKEN=********", "my_Secret=********",
        "Aws_Credentials=********", "HOME=/root"] ∧
    filterEnv true ["DB_PASSWORD=hunter2"] = ["DB_PASSWORD=hunter2"] := by
  refine ⟨?_, ?_, fun entry => ⟨_, isKeyOf_splitHead entry⟩, ?_, by simp [filterEnv], ?_,
    by decide, by decide⟩
  · rw [filterEnv_eq_map]
    induction env with
    | nil => exact List.Forall₂.nil
    | cons entry env ih =>
      rw [List.map_cons]
      refine List.Forall₂.cons ?_ ih
      intro key hkey
      rw [splitHead_of_isKeyOf key entry hkey]
      by_cases hb : blackListedEnvironKeys key = true
      · have hs := (blackListed_iff_sensitive key).mp hb
        rw [if_pos hb]
        exact ⟨fun _ => rfl, fun hn => absurd hs hn⟩
      · have hs : ¬ Sensitive key := fun h => hb ((blackListed_iff_sensitive key).mpr h)
        rw [if_neg hb]
        exact ⟨fun h => absurd h hs, fun _ => rfl⟩
  · rw [filterEnv_eq_map]; simp
  · intro env2 hrel
    rw [filterEnv_eq_map, filterEnv_eq_map]
    induction hrel with
    | nil => rfl
    | cons hab _ ih =>
      simp only [List.map_cons, List.cons.injEq]
      refine ⟨?_, ih⟩
      rcases hab with hab | ⟨key, hka, hkb, hs⟩
      · rw [hab]
      · have hb := (blackListed_iff_sensitive key).mpr hs
        rw [splitHead_of_isKeyOf key _ hka, splitHead_of_isKeyOf key _ hkb, if_pos hb, if_pos hb]
  · intro key hascii
    constructor
    · rintro ⟨word, hmem, pre, mid, post, hd, hall⟩
      refine ⟨word, hmem, pre, mid, post, hd, (forall₂_lower_iff _ _).mp ?_⟩
      exact forall₂_sameLetter_ascii _ _
        (fun c hc => hascii c (by rw [hd]; simp [hc])) hall
    · rintro ⟨word, hmem, pre, mid, post, hd, hmap⟩
      refine ⟨word, hmem, pre, mid, post, hd, ?_⟩
      exact ((forall₂_lower_iff _ _).mpr hmap).imp (fun _ _ h => Or.inl h)

end Bootstrap
